import Mathlib

/-!
# Verification of the `git_dump` traversal and ignore-resolution engine

A shallow embedding of `src/git_dump/core.py` (the canonical rewrite the
specification targets).  Filesystem trees are modelled as finite trees of
named entries; file contents are the decoded text the tool works with
(every on-disk file the tool admits is valid UTF-8 text, since files that
fail the binary sniff are skipped).  A per-file `readError` flag models a
transient I/O failure raised while the file's content is being read in
chunks (`RepoProcessor._read_file_chunks`), i.e. after a successful
binary-sniff open.

Glob matching models the subset of `pathspec`'s `gitwildmatch` dialect the
program exercises: `*` and `?` wildcards, `#` comments, blank lines,
leading `!` negation, trailing `/` directory-only rules, and anchoring of
patterns that contain a slash; character classes and the `**` super-glob
are treated as ordinary characters.  `fnmatch.fnmatch` (used for the
include allow-list) is modelled with `*` crossing `/`, as Python's does.
-/

namespace GitDump

/-- Glob matching of a pattern against a string (both as character lists).
`*` matches any (possibly empty) sequence of characters, `?` matches any
single character, every other character matches itself.  This is the
common core of `fnmatch.translate` and of a single `gitwildmatch`
path-segment glob (segments contain no `/`, so `*` not crossing `/` is
vacuous there). -/
def globMatch : List Char → List Char → Bool
  | [], [] => true
  | [], _ :: _ => false
  | c :: ps, s =>
    if c == '*' then
      globMatch ps s ||
        (match s with
         | [] => false
         | _ :: ds => globMatch (c :: ps) ds)
    else
      match s with
      | [] => false
      | d :: ds => (c == '?' || c == d) && globMatch ps ds
termination_by p s => (s.length, p.length)
decreasing_by
  · exact Prod.Lex.right _ (by simp)
  · exact Prod.Lex.left _ _ (by simp)
  · exact Prod.Lex.left _ _ (by simp)

/-- `fnmatch.fnmatch(path, pattern)` on POSIX (no case folding): the whole
path string is matched against the pattern, `*` crossing `/`. -/
def fnmatch (path pattern : String) : Bool :=
  globMatch pattern.toList path.toList

/-- One parsed `gitwildmatch` rule, as compiled by
`pathspec.PathSpec.from_lines("gitwildmatch", ...)`. -/
structure GitPattern where
  negated : Bool
  dirOnly : Bool
  anchored : Bool
  comps : List (List Char)
deriving Repr, DecidableEq

def charsToStr (cs : List Char) : String := ⟨cs⟩

/-- Python's default `str.strip` whitespace (the ASCII part, which is all
the tool's inputs use). -/
def pySpace (c : Char) : Bool :=
  c == ' ' || c == '\t' || c == '\n' || c == '\r' || c == '\x0b' || c == '\x0c'

def trimChars (cs : List Char) : List Char :=
  ((cs.dropWhile pySpace).reverse.dropWhile pySpace).reverse

/-- Python `str.split(sep)` for a single-character separator (always at
least one group). -/
def splitOnChar (sep : Char) : List Char → List (List Char)
  | [] => [[]]
  | c :: cs =>
    match splitOnChar sep cs with
    | [] => [[]]
    | g :: gs => if c == sep then [] :: g :: gs else (c :: g) :: gs

/-- Join character groups with a separator character
(`sep.join(groups)`). -/
def joinSep (sep : Char) : List (List Char) → List Char
  | [] => []
  | [g] => g
  | g :: gs => g ++ sep :: joinSep sep gs

/-- Parse one raw ignore line: blank lines and `#` comments yield no rule,
a leading `!` negates, a trailing `/` restricts to directories, and a rule
containing `/` is anchored to the matcher's base directory.  The line is
stripped of surrounding whitespace first, as the pattern compiler does. -/
def parsePatternLine (line : String) : Option GitPattern :=
  let t := trimChars line.data
  if t.isEmpty then none
  else if t.head? == some '#' then none
  else
    let neg := t.head? == some '!'
    let t1 := if neg then t.tail else t
    let dirOnly := t1.getLast? == some '/'
    let t2 := if dirOnly then t1.dropLast else t1
    let anch := t2.contains '/'
    let t3 := if t2.head? == some '/' then t2.tail else t2
    if t3.isEmpty then none
    else some ⟨neg, dirOnly, anch, splitOnChar '/' t3⟩

def parseLines (lines : List String) : List GitPattern :=
  lines.filterMap parsePatternLine

/-- Anchored components matching a (not necessarily proper) leading part of
the path's segments: `a/b` matches `a/b` and everything below it. -/
def matchComps : List (List Char) → List String → Bool
  | [], _ => true
  | _ :: _, [] => false
  | c :: cs, s :: ss => globMatch c s.toList && matchComps cs ss

/-- As `matchComps`, but something must remain below the matched part
(directory-only rules match only paths strictly inside the directory). -/
def matchCompsDir : List (List Char) → List String → Bool
  | [], [] => false
  | [], _ :: _ => true
  | _ :: _, [] => false
  | c :: cs, s :: ss => globMatch c s.toList && matchCompsDir cs ss

/-- Whether one rule matches a path given by its segments. A slashless rule
matches any single segment of the path (gitignore semantics: a name
matched at any depth excludes that file or directory and, for a
directory, everything below it). -/
def patMatch (p : GitPattern) (segs : List String) : Bool :=
  if p.anchored then
    if p.dirOnly then matchCompsDir p.comps segs else matchComps p.comps segs
  else
    match p.comps with
    | [g] =>
      if p.dirOnly then segs.dropLast.any (fun s => globMatch g s.toList)
      else segs.any (fun s => globMatch g s.toList)
    | _ => false

/-- The verdict of an ordered rule list on a path: the last matching rule
wins (`none` when no rule matches); `some true` means ignored, `some
false` means the last matching rule was a negation. This is
`pathspec.PathSpec.match_file`'s inner loop. -/
def specVerdict (ps : List GitPattern) (segs : List String) : Option Bool :=
  ps.foldl (fun acc p => if patMatch p segs then some (!p.negated) else acc) none

/-- `PathSpec.match_file`: matched iff the last matching rule is not a
negation. -/
def matchFile (ps : List GitPattern) (segs : List String) : Bool :=
  specVerdict ps segs == some true

/-- A regular file's observable state: its decoded text content, and
whether a chunked read of its content fails with a transient I/O error
(after the binary-sniff open succeeded). -/
structure FileData where
  content : String
  readError : Bool
deriving Repr, DecidableEq

/-- A filesystem entry under the repository root. -/
inductive Entry where
  | file : String → FileData → Entry
  | dir : String → List Entry → Entry
deriving Repr

def entryName : Entry → String
  | .file n _ => n
  | .dir n _ => n

def entryIsFile : Entry → Bool
  | .file _ _ => true
  | .dir _ _ => false

/-- Resolve a name among the children of one directory. -/
def findChild (es : List Entry) (n : String) : Option Entry :=
  es.find? (fun e => entryName e == n)

/-- Resolve a name among the children of one directory to a
subdirectory's children. -/
def findDir (es : List Entry) (n : String) : Option (List Entry) :=
  match findChild es n with
  | some (.dir _ cs) => some cs
  | _ => none

/-- Resolve a repository-relative path (as segments) to a regular file. -/
def findFile : List Entry → List String → Option FileData
  | _, [] => none
  | es, [n] =>
    match findChild es n with
    | some (.file _ d) => some d
    | _ => none
  | es, n :: rest =>
    match findDir es n with
    | some cs => findFile cs rest
    | none => none

/-- Python `f.readlines()` on text content, with each line's trailing
newline dropped (the parser strips surrounding whitespace anyway, so only
the line count and payloads matter). -/
def readLines (s : String) : List String :=
  if s.data.isEmpty then []
  else
    let parts := (splitOnChar '\n' s.data).map charsToStr
    if s.data.getLast? == some '\n' then parts.dropLast else parts

/-- The `RepoProcessor` constructor arguments that the engine reads.
`outputInRepo` is `some name` when the configured output artifact resolves
to the file `name` directly under the repository root (the model places an
in-tree output artifact at the top level), and `none` when the artifact
lies outside the tree. `verbose` and token counting only affect logging
and a side total, not the engine's decisions, and are omitted. -/
structure Config where
  repoName : String
  outputInRepo : Option String
  ignorePatterns : List String
  includePatterns : List String
  useGitignore : Bool
  startDelimiter : String
  endDelimiter : String
  dryRun : Bool
  maxFileSize : Nat
  includeTree : Bool
deriving Repr, DecidableEq

/-- `RepoProcessor._load_spec`: root `.gitignore` lines (when gitignore
support is on, the file exists and is readable) plus the user-supplied
extra ignore patterns; `None` when that combined raw list is empty. -/
def loadSpec (repo : List Entry) (cfg : Config) : Option (List GitPattern) :=
  let filePatterns :=
    if cfg.useGitignore then
      match findFile repo [".gitignore"] with
      | some fd => if fd.readError then [] else readLines fd.content
      | none => []
    else []
  let patterns := filePatterns ++ cfg.ignorePatterns
  if patterns.isEmpty then none else some (parseLines patterns)

/-- The compiled spec of the `.gitignore` in directory `anc` (relative to
the root), when that file exists, is readable and has at least one raw
line; paired with its base directory. -/
def gitignoreSpecAt (repo : List Entry) (anc : List String) :
    Option (List GitPattern × List String) :=
  match findFile repo (anc ++ [".gitignore"]) with
  | some fd =>
    if fd.readError then none
    else
      let ls := readLines fd.content
      if ls.isEmpty then none else some (parseLines ls, anc)
  | none => none

/-- `RepoProcessor._get_nested_gitignore_specs`: the `.gitignore` specs of
every ancestor (inclusive) of the visited directory, deepest first, each
with its base directory relative to the root. -/
def nestedGitignoreSpecs (repo : List Entry) (cfg : Config) (dirSegs : List String) :
    List (List GitPattern × List String) :=
  if cfg.useGitignore then
    ((List.range (dirSegs.length + 1)).reverse.map (fun k => dirSegs.take k)).filterMap
      (gitignoreSpecAt repo)
  else []

def pathStr (segs : List String) : String :=
  charsToStr (joinSep '/' (segs.map String.data))

/-- `RepoProcessor._matches_include`: with no allow-list every path
proceeds, otherwise the relative path must `fnmatch` one pattern. -/
def matchesInclude (cfg : Config) (relPath : String) : Bool :=
  if cfg.includePatterns.isEmpty then true
  else cfg.includePatterns.any (fun p => fnmatch relPath p)

/-- `RepoProcessor.is_ignored(relative_path, directory)`.  `spec` is the
processor's `self.spec` (built by `_load_spec` at construction time,
before the output file is opened).  The checks, in order: the fixed
`.git` exclusion; the output artifact's own path; any nested-`.gitignore`
match along the ancestor chain of `directory` (deepest first, the path
re-expressed relative to each matcher's base, a non-root matcher applying
only when its base is a proper segment-prefix of the path); finally the
root-level spec.  In `process` the `directory` argument is always the
directory being visited, so the `if directory and self.use_gitignore`
guard reduces to the gitignore switch. -/
def isIgnored (repo : List Entry) (cfg : Config) (spec : Option (List GitPattern))
    (relSegs dirSegs : List String) : Bool :=
  if relSegs.head? == some ".git" then true
  else if (match cfg.outputInRepo with
           | some n => relSegs == [n]
           | none => false) then true
  else if cfg.useGitignore &&
      (nestedGitignoreSpecs repo cfg dirSegs).any (fun sb =>
        if sb.2.isEmpty then matchFile sb.1 relSegs
        else if sb.2.isPrefixOf relSegs && decide (sb.2.length < relSegs.length) then
          matchFile sb.1 (relSegs.drop sb.2.length)
        else false) then true
  else
    match spec with
    | some sp => matchFile sp relSegs
    | none => false

/-- The characters of a text whose UTF-8 encoding fits entirely within the
first `n` bytes (the 8 KiB sniff window read by `_is_binary`). -/
def prefixBytesChars : Nat → List Char → List Char
  | _, [] => []
  | n, c :: cs => if c.utf8Size ≤ n then c :: prefixBytesChars (n - c.utf8Size) cs else []

/-- `RepoProcessor._is_binary`: a null byte within the first 8 KiB marks
the file binary.  Contents are modelled as decoded text, so the
`UnicodeDecodeError` branch (and its false positive when the 8192-byte
window cuts a multi-byte character) cannot fire, and the
open-failure branch is outside the transient-read-failure model. -/
def isBinary (content : String) : Bool :=
  (prefixBytesChars 8192 content.toList).any (fun c => c == '\x00')

/-- One emitted file record: the containing directory, the file name and
the raw content written between the delimiters. -/
structure FileRec where
  dir : List String
  name : String
  content : String
deriving Repr, DecidableEq

/-- Replace every occurrence of the six-character `\x7bpath\x7d` marker. -/
def replaceMarker (rep : List Char) : List Char → List Char
  | '\x7b' :: 'p' :: 'a' :: 't' :: 'h' :: '\x7d' :: cs => rep ++ replaceMarker rep cs
  | c :: cs => c :: replaceMarker rep cs
  | [] => []

/-- `str.format(path=rel_file)` for delimiter templates whose only
substitution point is the path field. -/
def formatTemplate (template path : String) : String :=
  charsToStr (replaceMarker path.data template.data)

/-- Python `file_content.endswith("\n")`. -/
def endsNewline (s : String) : Bool := s.data.getLast? == some '\n'

/-- The bytes `process` writes for one admitted file: the templated start
delimiter and a newline, the raw content, a forced newline when the
content is non-empty and does not already end in one, then the templated
end delimiter and a newline. -/
def renderRecord (cfg : Config) (r : FileRec) : String :=
  let rel := pathStr (r.dir ++ [r.name])
  formatTemplate cfg.startDelimiter rel ++ "\n" ++
    r.content ++
    (if !(r.content == "") && !endsNewline r.content then "\n" else "") ++
    formatTemplate cfg.endDelimiter rel ++ "\n"

/-- The per-file loop body of `RepoProcessor.process`, applied to one
directory's (already sorted) regular files: skip when ignored, when the
allow-list rejects, when the size exceeds the ceiling, or when the binary
sniff fires; in a dry run count without reading; otherwise read the whole
content (a transient read failure is caught, leaving the output and the
count untouched) and emit a record.  Returns the records and the number
of files counted. -/
def admitFiles (repo : List Entry) (cfg : Config) (spec : Option (List GitPattern))
    (dirSegs : List String) : List (String × FileData) → List FileRec × Nat
  | [] => ([], 0)
  | (n, fd) :: rest =>
    let acc := admitFiles repo cfg spec dirSegs rest
    if isIgnored repo cfg spec (dirSegs ++ [n]) dirSegs then acc
    else if !matchesInclude cfg (pathStr (dirSegs ++ [n])) then acc
    else if cfg.maxFileSize < fd.content.utf8ByteSize then acc
    else if isBinary fd.content then acc
    else if cfg.dryRun then (acc.1, acc.2 + 1)
    else if fd.readError then acc
    else (⟨dirSegs, n, fd.content⟩ :: acc.1, acc.2 + 1)

/-- The regular-file children of a directory, in listing order. -/
def filesOf (es : List Entry) : List (String × FileData) :=
  es.filterMap (fun e => match e with
    | .file n d => some (n, d)
    | .dir _ _ => none)

/-- Code-point lexicographic comparison of character lists — the order
Python's `sorted` uses on strings. -/
def charsLe : List Char → List Char → Bool
  | [], _ => true
  | _ :: _, [] => false
  | a :: as, b :: bs => if a == b then charsLe as bs else decide (a.toNat < b.toNat)

def strLe (a b : String) : Bool := charsLe a.data b.data

def fileNameLe (a b : String × FileData) : Bool := strLe a.1 b.1

/-- Insert into a sorted list, before the first element not below the
inserted one — the insertion step of a stable sort. -/
def insertSorted (le : α → α → Bool) (a : α) : List α → List α
  | [] => [a]
  | b :: bs => if le a b then a :: b :: bs else b :: insertSorted le a bs

/-- A stable sort (insertion sort), modelling Python's stable `sorted`. -/
def sortBy (le : α → α → Bool) : List α → List α
  | [] => []
  | a :: as => insertSorted le a (sortBy le as)

/-- What one run of the walk produces: the emitted records, the
processed-file count, and every discovered path (each child of every
visited directory — the transient Traversal Entries). -/
structure RunOut where
  recs : List FileRec
  count : Nat
  entries : List (List String)
deriving Repr

/-- The per-directory file pass of `RepoProcessor.process`: the regular
files of the visited directory, in sorted order, through the per-file
loop. -/
def filePass (repo : List Entry) (cfg : Config) (spec : Option (List GitPattern))
    (dirSegs : List String) (children : List Entry) : List FileRec × Nat :=
  admitFiles repo cfg spec dirSegs (sortBy fileNameLe (filesOf children))

mutual

/-- The recursive part of the `os.walk` loop of `RepoProcessor.process`:
the contribution of one scanned child of a visited directory.  A regular
file contributes nothing here (files are handled by the parent's file
pass); a subdirectory judged ignored is pruned and contributes nothing; a
surviving subdirectory contributes its own file pass, its discovered
children, and its recursively walked subtree. -/
def entryWalk (repo : List Entry) (cfg : Config) (spec : Option (List GitPattern))
    (e : Entry) (dirSegs : List String) : RunOut :=
  match e with
  | .file _ _ => ⟨[], 0, []⟩
  | .dir n cs =>
    if isIgnored repo cfg spec (dirSegs ++ [n]) dirSegs then ⟨[], 0, []⟩
    else
      let fb := filePass repo cfg spec (dirSegs ++ [n]) cs
      let inner := walkSub repo cfg spec cs (dirSegs ++ [n])
      ⟨fb.1 ++ inner.recs, fb.2 + inner.count,
        cs.map (fun c => (dirSegs ++ [n]) ++ [entryName c]) ++ inner.entries⟩
termination_by structural e

/-- Scan the children of a visited directory in listing order (the code
filters `dirs` in place but never sorts it), concatenating each child's
contribution. -/
def walkSub (repo : List Entry) (cfg : Config) (spec : Option (List GitPattern))
    (es : List Entry) (dirSegs : List String) : RunOut :=
  match es with
  | [] => ⟨[], 0, []⟩
  | e :: rest =>
    let h := entryWalk repo cfg spec e dirSegs
    let t := walkSub repo cfg spec rest dirSegs
    ⟨h.recs ++ t.recs, h.count + t.count, h.entries ++ t.entries⟩
termination_by structural es
end

/-- The full `os.walk` traversal from a visited directory: its own file
pass and discovered children, then its walked subdirectories. -/
def walkDir (repo : List Entry) (cfg : Config) (spec : Option (List GitPattern))
    (dirSegs : List String) (children : List Entry) : RunOut :=
  let fb := filePass repo cfg spec dirSegs children
  let sub := walkSub repo cfg spec children dirSegs
  ⟨fb.1 ++ sub.recs, fb.2 + sub.count,
    children.map (fun e => dirSegs ++ [entryName e]) ++ sub.entries⟩

theorem sizeOf_filter_le {α} [SizeOf α] (p : α → Bool) (l : List α) :
    sizeOf (l.filter p) ≤ sizeOf l := by
  induction l with
  | nil => simp
  | cons a l ih =>
    rw [List.filter_cons]
    cases p a <;> simp <;> omega

theorem insertSorted_perm (le : α → α → Bool) (a : α) (l : List α) :
    List.Perm (insertSorted le a l) (a :: l) := by
  induction l with
  | nil => exact List.Perm.refl _
  | cons b bs ih =>
    rw [insertSorted]
    split
    · exact List.Perm.refl _
    · exact (ih.cons b).trans (List.Perm.swap a b bs)

theorem sortBy_perm (le : α → α → Bool) (l : List α) : List.Perm (sortBy le l) l := by
  induction l with
  | nil => exact List.Perm.refl _
  | cons a as ih => exact (insertSorted_perm le a (sortBy le as)).trans (ih.cons a)

theorem sizeOf_sortBy_eq {α} [SizeOf α] (le : α → α → Bool) (l : List α) :
    sizeOf (sortBy le l) = sizeOf l :=
  (sortBy_perm le l).sizeOf_eq_sizeOf

/-- The fixed exclusion list of `generate_tree_structure._should_ignore`. -/
def treeIgnoreNames : List String :=
  [".git", "__pycache__", ".pytest_cache", ".ruff_cache", ".venv", "venv",
   "node_modules", ".DS_Store"]

/-- `_should_ignore`: some segment of the relative path is one of the
fixed noise names. -/
def treeShouldIgnore (relSegs : List String) : Bool :=
  treeIgnoreNames.any (fun pat => relSegs.contains pat)

/-- The child order of the tree diagram: Python's
`sorted(key=lambda x: (x.is_file(), x.name.lower()))` — directories
before files, each group by case-folded name. -/
def lowerAscii (s : String) : String := ⟨s.data.map Char.toLower⟩

def treeChildLe (a b : Entry) : Bool :=
  (!entryIsFile a && entryIsFile b) ||
    (entryIsFile a == entryIsFile b &&
      strLe (lowerAscii (entryName a)) (lowerAscii (entryName b)))

/-- The surviving, ordered children of a directory in the diagram: the
`_should_ignore` filter from the `iterdir` comprehension, then the
`(is_file, lower name)` sort. -/
def treeKids (relSegs : List String) (cs : List Entry) : List Entry :=
  sortBy treeChildLe (cs.filter (fun c => !treeShouldIgnore (relSegs ++ [entryName c])))

theorem sizeOf_treeKids_le (relSegs : List String) (cs : List Entry) :
    sizeOf (treeKids relSegs cs) ≤ sizeOf cs :=
  le_trans (le_of_eq (sizeOf_sortBy_eq _ _)) (sizeOf_filter_le _ _)

mutual
/-- `generate_tree_structure._add_tree_item`: emit one item's line (its
full relative path, prefixed) and, for a directory, the lines of its
surviving children with the per-child continued prefix. -/
def addTreeItem (maxDepth : Option Nat) (parentSegs : List String) (pfx : String)
    (depth : Nat) (e : Entry) : List String :=
  if (match maxDepth with | some m => decide (m < depth) | none => false) then []
  else
    let relSegs := parentSegs ++ [entryName e]
    if treeShouldIgnore relSegs then []
    else
      match e with
      | .file _ _ => [pfx ++ "├── " ++ pathStr relSegs]
      | .dir _ cs =>
        (pfx ++ "├── " ++ pathStr relSegs ++ "/") ::
          treeChildrenLines maxDepth relSegs (pfx ++ "    ") (pfx ++ "│   ") (depth + 1)
            (treeKids relSegs cs)
termination_by (sizeOf e, 0)
decreasing_by
  simp_wf
  rename_i name cs
  refine Prod.Lex.left _ _ ?_
  have h := sizeOf_treeKids_le (parentSegs ++ [entryName e]) cs
  omega

/-- The `enumerate(children)` loop: every child but the last gets the
continuing prefix, the last child the closing one. -/
def treeChildrenLines (maxDepth : Option Nat) (parentSegs : List String)
    (pfxLast pfxMid : String) (depth : Nat) : List Entry → List String
  | [] => []
  | [e] => addTreeItem maxDepth parentSegs pfxLast depth e
  | e :: rest =>
    addTreeItem maxDepth parentSegs pfxMid depth e ++
      treeChildrenLines maxDepth parentSegs pfxLast pfxMid depth rest
termination_by es => (sizeOf es, 1)
end

/-- `generate_tree_structure(repo_path)`: the marker line, the root line,
the recursively rendered children (root children get an empty prefix when
last, a continuing one otherwise, at depth 0), and the end marker that
carries its own trailing newline; all joined with newlines. -/
def generateTreeStructure (repoName : String) (rootChildren : List Entry)
    (maxDepth : Option Nat) : String :=
  String.intercalate "\n"
    (["--- REPOSITORY STRUCTURE ---", repoName ++ "/"] ++
      treeChildrenLines maxDepth [] "" "│   " 0 (treeKids [] rootChildren) ++
      ["--- END REPOSITORY STRUCTURE ---\n"])

/-- Write `content` to the root-level file `n`: `open(n, "w")` replaces an
existing regular file's content (truncating to `""` on open, the full
document on close) and creates the file otherwise.  (The fatal abort when
the output path names an existing directory is outside the model.) -/
def setRootFile : List Entry → String → String → List Entry
  | [], n, c => [.file n ⟨c, false⟩]
  | .file m d :: rest, n, c =>
    if m == n then .file n ⟨c, false⟩ :: rest
    else .file m d :: setRootFile rest n c
  | .dir m cs :: rest, n, c => .dir m cs :: setRootFile rest n c

/-- The state of the tree right after `open(self.output_file, "w")`: the
in-tree output artifact exists and is empty. -/
def touchOutput (t : List Entry) (cfg : Config) : List Entry :=
  match cfg.outputInRepo with
  | some n => setRootFile t n ""
  | none => t

/-- The state of the tree after the run closed the output artifact. -/
def writeOutputDoc (t : List Entry) (cfg : Config) (doc : String) : List Entry :=
  match cfg.outputInRepo with
  | some n => setRootFile t n doc
  | none => t

def docOfRecs (cfg : Config) (rs : List FileRec) : String :=
  String.join (rs.map (renderRecord cfg))

/-- Everything observable about one run: the output document (`none` in a
dry run, when no artifact is created), the returned processed-file count,
the emitted records and discovered paths, and the tree as the run leaves
it. -/
structure RunResult where
  doc : Option String
  count : Nat
  recs : List FileRec
  entries : List (List String)
  tree : List Entry

/-- `RepoProcessor.process` on a tree: `self.spec` was built by the
constructor from the original tree; a dry run opens nothing and walks the
tree as-is; a real run first creates/truncates the output artifact, then
(when requested) renders the structure diagram of what the filesystem now
holds, then walks it, writing each admitted record, and leaves the full
document in the artifact on close. -/
def run (t : List Entry) (cfg : Config) : RunResult :=
  let spec := loadSpec t cfg
  if cfg.dryRun then
    let w := walkDir t cfg spec [] t
    ⟨none, w.count, w.recs, w.entries, t⟩
  else
    let t1 := touchOutput t cfg
    let diagram := if cfg.includeTree then generateTreeStructure cfg.repoName t1 none else ""
    let w := walkDir t1 cfg spec [] t1
    let doc := diagram ++ docOfRecs cfg w.recs
    ⟨some doc, w.count, w.recs, w.entries, writeOutputDoc t1 cfg doc⟩

/-- Modelled from the spec, §4.2 steps 3–5 (not from the code): the
nested matchers of the ancestor chain are consulted deepest first and the
first one producing a definitive verdict (ignored, or explicitly negated)
decides; the root-level spec is evaluated only when no nested matcher
produced a verdict.  Steps 1–2 (the fixed `.git` exclusion and the output
artifact's own path) are as in the code. -/
def isIgnoredSpecChain (repo : List Entry) (cfg : Config) (spec : Option (List GitPattern))
    (relSegs dirSegs : List String) : Bool :=
  if relSegs.head? == some ".git" then true
  else if (match cfg.outputInRepo with
           | some n => relSegs == [n]
           | none => false) then true
  else
    let verdicts :=
      if cfg.useGitignore then
        (nestedGitignoreSpecs repo cfg dirSegs).filterMap (fun sb =>
          if sb.2.isEmpty then specVerdict sb.1 relSegs
          else if sb.2.isPrefixOf relSegs && decide (sb.2.length < relSegs.length) then
            specVerdict sb.1 (relSegs.drop sb.2.length)
          else none)
      else []
    match verdicts.head? with
    | some v => v
    | none =>
      match spec with
      | some sp => matchFile sp relSegs
      | none => false

def entryNameLe (a b : Entry) : Bool := strLe (entryName a) (entryName b)

mutual

/-- Recursively put every directory's children in lexicographic name
order. -/
def sortEntry : Entry → Entry
  | .file n d => .file n d
  | .dir n cs => .dir n (sortBy entryNameLe (sortEntries cs))
termination_by structural e => e

def sortEntries : List Entry → List Entry
  | [] => []
  | e :: es => sortEntry e :: sortEntries es
termination_by structural es => es

end

/-- Modelled from the spec, §3 "Output Document" (not from the code): the
same walk as `walkDir`, but with directories visited in path order —
sibling directories scanned in lexicographic name order at every level. -/
def walkDirSpecOrder (repo : List Entry) (cfg : Config) (spec : Option (List GitPattern))
    (dirSegs : List String) (children : List Entry) : RunOut :=
  walkDir repo cfg spec dirSegs (sortBy entryNameLe (sortEntries children))

/-! ## Concrete repositories and configurations used by the theorems -/

/-- The constructor defaults of `RepoProcessor` (output artifact outside
the tree, no extra patterns, gitignore support on, 512 000-byte ceiling),
with the tree diagram off so documents consist of file records only. -/
def baseConfig : Config :=
  { repoName := "repo", outputInRepo := none, ignorePatterns := [], includePatterns := [],
    useGitignore := true, startDelimiter := "--- FILE: \x7bpath\x7d ---",
    endDelimiter := "--- END FILE ---", dryRun := false, maxFileSize := 512000,
    includeTree := false }

/-- Root `*.log` rule, nested `secret.txt` rule in `subdir` (the §8
scenario). -/
def nestedScenarioTree : List Entry :=
  [.file ".gitignore" ⟨"*.log\n", false⟩,
   .file "app.log" ⟨"x\n", false⟩,
   .dir "subdir"
     [.file ".gitignore" ⟨"secret.txt\n", false⟩,
      .file "public.txt" ⟨"hi\n", false⟩,
      .file "secret.txt" ⟨"s\n", false⟩]]

/-- Root `*.log` rule; `sub/.gitignore` re-includes `app.log` with a
negation. -/
def negationTree : List Entry :=
  [.file ".gitignore" ⟨"*.log\n", false⟩,
   .dir "sub"
     [.file ".gitignore" ⟨"!app.log\n", false⟩,
      .file "app.log" ⟨"x\n", false⟩]]

/-- Two sibling directories listed in reverse lexicographic order. -/
def siblingTree : List Entry :=
  [.dir "b" [.file "x" ⟨"1", false⟩],
   .dir "a" [.file "y" ⟨"2", false⟩]]

/-- The §8 include-pattern scenario. -/
def includeScenarioTree : List Entry :=
  [.file "main.py" ⟨"print(1)\n", false⟩,
   .file "README.md" ⟨"r\n", false⟩,
   .file "data.json" ⟨"d\n", false⟩]

/-- One text file whose chunked content read fails transiently. -/
def readErrorTree : List Entry := [.file "f.txt" ⟨"hello", true⟩]

/-- A tree in which a run whose output artifact is the root `.gitignore`
writes a document containing the bare line `x` — which the second run
then parses as an ignore rule matching the file `x`. -/
def selfOutputTree : List Entry :=
  [.file "notes.txt" ⟨"x\n", false⟩, .file "x" ⟨"y", false⟩]

/-! ## General lemmas -/

theorem charToNat_inj {a b : Char} (h : a.toNat = b.toNat) : a = b := by
  apply Char.ext
  have hv : a.val.toNat = b.val.toNat := h
  cases hva : a.val
  cases hvb : b.val
  rw [hva, hvb] at hv
  simp only [UInt32.toNat] at hv
  congr 1
  exact BitVec.eq_of_toNat_eq hv

theorem charsLe_total : ∀ xs ys, (charsLe xs ys || charsLe ys xs) = true := by
  intro xs
  induction xs with
  | nil => intro ys; cases ys <;> simp [charsLe]
  | cons a as ih =>
    intro ys
    cases ys with
    | nil => simp [charsLe]
    | cons b bs =>
      rw [charsLe, charsLe]
      by_cases hab : a = b
      · subst hab
        rw [if_pos (by simp), if_pos (by simp)]
        exact ih bs
      · rw [if_neg (by simpa using hab), if_neg (by simpa using Ne.symm hab)]
        have hne : a.toNat ≠ b.toNat := fun hn => hab (charToNat_inj hn)
        rcases Nat.lt_or_ge a.toNat b.toNat with h | h
        · simp [h]
        · have hlt : b.toNat < a.toNat := Nat.lt_of_le_of_ne h (Ne.symm hne)
          simp [hlt]

theorem charsLe_trans : ∀ xs ys zs, charsLe xs ys = true → charsLe ys zs = true →
    charsLe xs zs = true := by
  intro xs
  induction xs with
  | nil => intro ys zs h1 h2; cases zs <;> simp [charsLe]
  | cons a as ih =>
    intro ys zs h1 h2
    cases ys with
    | nil => rw [charsLe] at h1; exact absurd h1 (by simp)
    | cons b bs =>
      cases zs with
      | nil => rw [charsLe] at h2; exact absurd h2 (by simp)
      | cons c cs =>
        rw [charsLe] at h1 h2 ⊢
        by_cases hab : a = b
        · subst hab
          rw [if_pos (by simp)] at h1
          by_cases hac : a = c
          · subst hac
            rw [if_pos (by simp)] at h2 ⊢
            exact ih bs cs h1 h2
          · rw [if_neg (by simpa using hac)] at h2 ⊢
            exact h2
        · rw [if_neg (by simpa using hab)] at h1
          by_cases hbc : b = c
          · subst hbc
            rw [if_neg (by simpa using hab)]
            exact h1
          · rw [if_neg (by simpa using hbc)] at h2
            have hlt : a.toNat < c.toNat :=
              Nat.lt_trans (by simpa using h1) (by simpa using h2)
            have hac : a ≠ c := by
              intro he
              rw [he] at hlt
              exact Nat.lt_irrefl _ hlt
            rw [if_neg (by simpa using hac)]
            simpa using hlt

theorem fileNameLe_total (a b : String × FileData) :
    (fileNameLe a b || fileNameLe b a) = true :=
  charsLe_total a.1.data b.1.data

theorem fileNameLe_trans (a b c : String × FileData) (h1 : fileNameLe a b = true)
    (h2 : fileNameLe b c = true) : fileNameLe a c = true :=
  charsLe_trans a.1.data b.1.data c.1.data h1 h2

theorem pairwise_insertSorted (le : α → α → Bool)
    (htr : ∀ a b c, le a b = true → le b c = true → le a c = true)
    (hto : ∀ a b, (le a b || le b a) = true)
    (a : α) (l : List α) (h : l.Pairwise (le · · = true)) :
    (insertSorted le a l).Pairwise (le · · = true) := by
  induction l with
  | nil => simp [insertSorted]
  | cons b bs ih =>
    rw [insertSorted]
    rcases List.pairwise_cons.mp h with ⟨hb, hbs⟩
    by_cases hab : le a b = true
    · rw [if_pos hab]
      refine List.pairwise_cons.mpr ⟨?_, h⟩
      intro y hy
      rcases List.mem_cons.mp hy with hy0 | hy0
      · rw [hy0]; exact hab
      · exact htr a b y hab (hb y hy0)
    · rw [if_neg hab]
      refine List.pairwise_cons.mpr ⟨?_, ih hbs⟩
      intro y hy
      have hy' := (insertSorted_perm le a bs).mem_iff.mp hy
      rcases List.mem_cons.mp hy' with hy0 | hy0
      · rw [hy0]
        have htot := hto a b
        cases hba : le b a
        · rw [hba] at htot
          cases hab' : le a b
          · rw [hab'] at htot; simp at htot
          · exact absurd hab' hab
        · rfl
      · exact hb y hy0

theorem pairwise_sortBy (le : α → α → Bool)
    (htr : ∀ a b c, le a b = true → le b c = true → le a c = true)
    (hto : ∀ a b, (le a b || le b a) = true) (l : List α) :
    (sortBy le l).Pairwise (le · · = true) := by
  induction l with
  | nil => simp [sortBy]
  | cons a as ih =>
    rw [sortBy]
    exact pairwise_insertSorted le htr hto a (sortBy le as) ih

theorem admitFiles_mem (repo : List Entry) (cfg : Config) (spec : Option (List GitPattern))
    (d : List String) :
    ∀ (l : List (String × FileData)) (r : FileRec), r ∈ (admitFiles repo cfg spec d l).1 →
      r.dir = d ∧ matchesInclude cfg (pathStr (d ++ [r.name])) = true ∧
        r.content.utf8ByteSize ≤ cfg.maxFileSize := by
  intro l
  induction l with
  | nil => intro r hr; rw [admitFiles] at hr; simp at hr
  | cons x rest ih =>
    obtain ⟨n, fd⟩ := x
    intro r hr
    rw [admitFiles] at hr
    split at hr
    · exact ih r hr
    · split at hr
      · exact ih r hr
      · split at hr
        · exact ih r hr
        · split at hr
          · exact ih r hr
          · split at hr
            · exact ih r hr
            · split at hr
              · exact ih r hr
              · rcases List.mem_cons.mp hr with hr0 | hr0
                · rename_i hign hinc hsize hbin hdry herr
                  rw [hr0]
                  refine ⟨rfl, ?_, ?_⟩
                  · simpa using hinc
                  · exact Nat.le_of_not_lt hsize
                · exact ih r hr0

theorem admitFiles_names_sublist (repo : List Entry) (cfg : Config)
    (spec : Option (List GitPattern)) (d : List String) :
    ∀ l, List.Sublist ((admitFiles repo cfg spec d l).1.map FileRec.name)
      (l.map Prod.fst) := by
  intro l
  induction l with
  | nil => rw [admitFiles]; simp
  | cons x rest ih =>
    obtain ⟨n, fd⟩ := x
    rw [admitFiles]
    simp only [List.map_cons]
    split
    · exact ih.cons n
    · split
      · exact ih.cons n
      · split
        · exact ih.cons n
        · split
          · exact ih.cons n
          · split
            · exact ih.cons n
            · split
              · exact ih.cons n
              · simpa using ih.cons₂ n

theorem walk_recs_filePass (repo : List Entry) (cfg : Config)
    (spec : Option (List GitPattern)) :
    ∀ N : Nat,
      (∀ (e : Entry) (dirSegs : List String), sizeOf e ≤ N →
        ∀ r ∈ (entryWalk repo cfg spec e dirSegs).recs,
          ∃ d cs, r ∈ (filePass repo cfg spec d cs).1) ∧
      (∀ (es : List Entry) (dirSegs : List String), sizeOf es ≤ N →
        ∀ r ∈ (walkSub repo cfg spec es dirSegs).recs,
          ∃ d cs, r ∈ (filePass repo cfg spec d cs).1) := by
  intro N
  induction N with
  | zero =>
    constructor
    · intro e dirSegs hs
      exact absurd hs (by cases e <;> simp)
    · intro es dirSegs hs
      exact absurd hs (by cases es <;> simp)
  | succ N ih =>
    constructor
    · intro e dirSegs hs r hr
      cases e with
      | file n d => rw [entryWalk] at hr; simp at hr
      | dir n cs =>
        rw [entryWalk] at hr
        split at hr
        · simp at hr
        · rcases List.mem_append.mp hr with h | h
          · exact ⟨dirSegs ++ [n], cs, h⟩
          · refine (ih.2) cs (dirSegs ++ [n]) ?_ r h
            have hlt : sizeOf cs < sizeOf (Entry.dir n cs) := by simp
            omega
    · intro es dirSegs hs r hr
      cases es with
      | nil => rw [walkSub] at hr; simp at hr
      | cons e rest =>
        rw [walkSub] at hr
        rcases List.mem_append.mp hr with h | h
        · refine (ih.1) e dirSegs ?_ r h
          have : sizeOf e < sizeOf (e :: rest) := by simp; omega
          omega
        · refine (ih.2) rest dirSegs ?_ r h
          have : sizeOf rest < sizeOf (e :: rest) := by simp
          omega

theorem run_recs_filePass (t : List Entry) (cfg : Config) (r : FileRec)
    (hr : r ∈ (run t cfg).recs) :
    ∃ repo d cs, r ∈ (filePass repo cfg (loadSpec t cfg) d cs).1 := by
  rw [run] at hr
  split at hr
  · rcases List.mem_append.mp hr with h | h
    · exact ⟨t, [], t, h⟩
    · rcases (walk_recs_filePass t cfg (loadSpec t cfg) (sizeOf t)).2 t []
        (le_refl _) r h with ⟨d, cs, hm⟩
      exact ⟨t, d, cs, hm⟩
  · rcases List.mem_append.mp hr with h | h
    · exact ⟨touchOutput t cfg, [], touchOutput t cfg, h⟩
    · rcases (walk_recs_filePass (touchOutput t cfg) cfg (loadSpec t cfg)
        (sizeOf (touchOutput t cfg))).2 (touchOutput t cfg) []
        (le_refl _) r h with ⟨d, cs, hm⟩
      exact ⟨touchOutput t cfg, d, cs, hm⟩

/-! ## C3 -/

set_option maxRecDepth 4000 in
unseal globMatch in
/-- C3: with the root ignore file holding `*.log` and `subdir`'s ignore
file holding `secret.txt`, the run's records are exactly the root
`.gitignore`, `subdir/.gitignore` and `subdir/public.txt` — `app.log` and
`subdir/secret.txt` are excluded, and both ignore files appear in the
output as ordinary files. -/
theorem c3_nested_scenario :
    (run nestedScenarioTree baseConfig).recs =
      [⟨[], ".gitignore", "*.log\n"⟩,
       ⟨["subdir"], ".gitignore", "secret.txt\n"⟩,
       ⟨["subdir"], "public.txt", "hi\n"⟩] ∧
    (run nestedScenarioTree baseConfig).count = 3 := by decide

/-! ## C1 -/

unseal globMatch in
/-- C1 counterexample: the negation rule `!app.log` in the deepest ignore
file (`sub/.gitignore`) does not re-include `sub/app.log` against the
root rule `*.log` — `is_ignored` still answers `true`, while the spec's
deepest-verdict-wins chain answers `false`. -/
theorem c1_counterexample :
    isIgnored negationTree baseConfig (loadSpec negationTree baseConfig)
      ["sub", "app.log"] ["sub"] = true ∧
    isIgnoredSpecChain negationTree baseConfig (loadSpec negationTree baseConfig)
      ["sub", "app.log"] ["sub"] = false := by decide

/-- C1 amended: the matchers are combined by disjunction, not by a
deepest-first precedence chain — a positive match of the root-level spec
forces `is_ignored` to answer `true` for every tree, configuration and
directory, so no descendant matcher's negation verdict can override an
ancestor's positive verdict. -/
theorem c1_amended_ancestor_match_wins (repo : List Entry) (cfg : Config)
    (sp : List GitPattern) (relSegs dirSegs : List String)
    (h : matchFile sp relSegs = true) :
    isIgnored repo cfg (some sp) relSegs dirSegs = true := by
  unfold isIgnored
  split
  · rfl
  · split
    · rfl
    · split
      · rfl
      · exact h

unseal globMatch in
/-- C1 amended, witness: the root spec `*.log` matches `sub/app.log`, so
the file is ignored even though `sub/.gitignore` negates it. -/
theorem c1_amended_witness :
    matchFile (parseLines ["*.log"]) ["sub", "app.log"] = true ∧
    isIgnored negationTree baseConfig (some (parseLines ["*.log"]))
      ["sub", "app.log"] ["sub"] = true :=
  ⟨by decide, c1_amended_ancestor_match_wins _ _ _ _ _ (by decide)⟩

/-! ## C4 -/

set_option maxRecDepth 4000 in
unseal globMatch in
/-- C4 counterexample: with sibling directories listed as `b`, `a`, the
records appear as `b/x` then `a/y` — the walk visits directories in
listing order, not in path order as the spec's output-document contract
describes. -/
theorem c4_counterexample :
    (walkDir siblingTree baseConfig (loadSpec siblingTree baseConfig) [] siblingTree).recs =
      [⟨["b"], "x", "1"⟩, ⟨["a"], "y", "2"⟩] ∧
    (walkDirSpecOrder siblingTree baseConfig (loadSpec siblingTree baseConfig) []
        siblingTree).recs =
      [⟨["a"], "y", "2"⟩, ⟨["b"], "x", "1"⟩] ∧
    (walkDir siblingTree baseConfig (loadSpec siblingTree baseConfig) [] siblingTree).recs ≠
      (walkDirSpecOrder siblingTree baseConfig (loadSpec siblingTree baseConfig) []
        siblingTree).recs := by decide

/-- C4 amended: within any one visited directory, the emitted file
records appear in lexicographic (code-point) order of their names — the
per-directory file pass works through the name-sorted file list;
directories, however, are visited in the order the directory listing
enumerates them, not in path order. -/
theorem c4_amended_files_sorted (repo : List Entry) (cfg : Config)
    (spec : Option (List GitPattern)) (dirSegs : List String) (children : List Entry) :
    ((filePass repo cfg spec dirSegs children).1.map FileRec.name).Pairwise
      (fun a b => strLe a b = true) := by
  have hsorted := pairwise_sortBy fileNameLe fileNameLe_trans fileNameLe_total
    (filesOf children)
  have hnames : ((sortBy fileNameLe (filesOf children)).map Prod.fst).Pairwise
      (fun a b => strLe a b = true) := by
    rw [List.pairwise_map]
    exact hsorted
  exact List.Pairwise.sublist (admitFiles_names_sublist repo cfg spec dirSegs _) hnames

/-! ## C8 -/

/-- C8: every record the run emits has content within the configured byte
ceiling — equivalently, a candidate file whose size exceeds the ceiling
is excluded from the output regardless of its content (the ceiling
defaults to 512 000 bytes in `baseConfig`). -/
theorem c8_size_ceiling (t : List Entry) (cfg : Config) (r : FileRec)
    (hr : r ∈ (run t cfg).recs) :
    r.content.utf8ByteSize ≤ cfg.maxFileSize := by
  rcases run_recs_filePass t cfg r hr with ⟨repo, d, cs, hm⟩
  exact (admitFiles_mem repo cfg (loadSpec t cfg) d _ r hm).2.2

/-- C8 witness: a record of a concrete run, within the default ceiling. -/
theorem c8_witness :
    (⟨[], "README.md", "r\n"⟩ : FileRec) ∈ (run includeScenarioTree baseConfig).recs ∧
    (FileRec.mk [] "README.md" "r\n").content.utf8ByteSize ≤ baseConfig.maxFileSize :=
  ⟨by decide, c8_size_ceiling includeScenarioTree baseConfig _ (by decide)⟩

/-! ## C9 -/

def includeConfig : Config := { baseConfig with includePatterns := ["*.py", "*.md"] }

unseal globMatch in
/-- C9: the include allow-list — a path passes `_matches_include` exactly
when the allow-list is absent or some pattern `fnmatch`-matches it; every
emitted record passed that filter; and on `main.py`, `README.md`,
`data.json` with patterns `*.py`, `*.md` the output holds exactly the
first two (in traversal order `README.md`, `main.py`). -/
theorem c9_include_allowlist :
    (∀ (cfg : Config) (rel : String),
      matchesInclude cfg rel = true ↔
        (cfg.includePatterns = [] ∨ ∃ p ∈ cfg.includePatterns, fnmatch rel p = true)) ∧
    (∀ (t : List Entry) (cfg : Config) (r : FileRec), r ∈ (run t cfg).recs →
      matchesInclude cfg (pathStr (r.dir ++ [r.name])) = true) ∧
    (run includeScenarioTree includeConfig).recs =
      [⟨[], "README.md", "r\n"⟩, ⟨[], "main.py", "print(1)\n"⟩] := by
  refine ⟨?_, ?_, by decide⟩
  · intro cfg rel
    by_cases he : cfg.includePatterns = []
    · simp [matchesInclude, he]
    · simp [matchesInclude, he, List.isEmpty_iff, List.any_eq_true]
  · intro t cfg r hr
    rcases run_recs_filePass t cfg r hr with ⟨repo, d, cs, hm⟩
    rcases admitFiles_mem repo cfg (loadSpec t cfg) d _ r hm with ⟨hd, hinc, _⟩
    rw [hd]
    exact hinc

unseal globMatch in
/-- C9 witness: the membership part applied to a record of the concrete
scenario run. -/
theorem c9_witness :
    (⟨[], "README.md", "r\n"⟩ : FileRec) ∈ (run includeScenarioTree includeConfig).recs ∧
    matchesInclude includeConfig (pathStr (([] : List String) ++ ["README.md"])) = true :=
  ⟨by decide, c9_include_allowlist.2.1 includeScenarioTree includeConfig
    ⟨[], "README.md", "r\n"⟩ (by decide)⟩

/-! ## C2 -/

/-- Every discovered path and every record path produced by one walk. -/
def allPaths (w : RunOut) : List (List String) :=
  w.entries ++ w.recs.map (fun r => r.dir ++ [r.name])

theorem walk_paths_aux (repo : List Entry) (cfg : Config)
    (spec : Option (List GitPattern)) :
    ∀ N : Nat,
      (∀ (e : Entry) (dirSegs : List String), sizeOf e ≤ N →
        ∀ p ∈ allPaths (entryWalk repo cfg spec e dirSegs),
          ∃ suf, p = dirSegs ++ suf ∧ suf ≠ [] ∧
            ∀ j, j + 1 < suf.length →
              isIgnored repo cfg spec (dirSegs ++ suf.take (j + 1))
                (dirSegs ++ suf.take j) = false) ∧
      (∀ (es : List Entry) (dirSegs : List String), sizeOf es ≤ N →
        ∀ p ∈ allPaths (walkSub repo cfg spec es dirSegs),
          ∃ suf, p = dirSegs ++ suf ∧ suf ≠ [] ∧
            ∀ j, j + 1 < suf.length →
              isIgnored repo cfg spec (dirSegs ++ suf.take (j + 1))
                (dirSegs ++ suf.take j) = false) := by
  intro N
  induction N with
  | zero =>
    constructor
    · intro e dirSegs hs
      exact absurd hs (by cases e <;> simp)
    · intro es dirSegs hs
      exact absurd hs (by cases es <;> simp)
  | succ N ih =>
    have step2 : ∀ (dirSegs : List String) (n : String) (suf : List String),
        suf ≠ [] →
        isIgnored repo cfg spec (dirSegs ++ [n]) dirSegs = false →
        (∀ j, j + 1 < suf.length →
          isIgnored repo cfg spec ((dirSegs ++ [n]) ++ suf.take (j + 1))
            ((dirSegs ++ [n]) ++ suf.take j) = false) →
        ∀ j, j + 1 < (n :: suf).length →
          isIgnored repo cfg spec (dirSegs ++ (n :: suf).take (j + 1))
            (dirSegs ++ (n :: suf).take j) = false := by
      intro dirSegs n suf _ hig hchain j hj
      cases j with
      | zero =>
        simpa using hig
      | succ j' =>
        have hj' : j' + 1 < suf.length := by
          simpa using Nat.lt_of_succ_lt_succ hj
        have := hchain j' hj'
        simpa [List.append_assoc] using this
    constructor
    · intro e dirSegs hs p hp
      cases e with
      | file n d =>
        rw [entryWalk] at hp
        simp [allPaths] at hp
      | dir n cs =>
        rw [entryWalk] at hp
        split at hp
        · simp [allPaths] at hp
        · rename_i hig
          have hig' : isIgnored repo cfg spec (dirSegs ++ [n]) dirSegs = false :=
            Bool.not_eq_true _ ▸ eq_false_of_ne_true hig
          have hcs : sizeOf cs ≤ N := by
            have : sizeOf cs < sizeOf (Entry.dir n cs) := by simp
            omega
          rcases List.mem_append.mp hp with hp1 | hp1
          · rcases List.mem_append.mp hp1 with hp2 | hp2
            · rcases List.mem_map.mp hp2 with ⟨c, _, hc⟩
              refine ⟨[n, entryName c], ?_, by simp, ?_⟩
              · rw [← hc]; simp
              · intro j hj
                have hj0 : j = 0 := by simp at hj; omega
                subst hj0
                simpa using hig'
            · rcases (ih.2 cs (dirSegs ++ [n]) hcs p
                (List.mem_append.mpr (Or.inl hp2))) with ⟨suf, hpe, hne, hchain⟩
              refine ⟨n :: suf, ?_, by simp, step2 dirSegs n suf hne hig' hchain⟩
              rw [hpe]; simp
          · rcases List.mem_map.mp hp1 with ⟨r, hr, hpr⟩
            rcases List.mem_append.mp hr with hr1 | hr1
            · have hd := (admitFiles_mem repo cfg spec (dirSegs ++ [n]) _ r hr1).1
              refine ⟨[n, r.name], ?_, by simp, ?_⟩
              · rw [← hpr, hd]; simp
              · intro j hj
                have hj0 : j = 0 := by simp at hj; omega
                subst hj0
                simpa using hig'
            · rcases (ih.2 cs (dirSegs ++ [n]) hcs p
                (List.mem_append.mpr (Or.inr (List.mem_map.mpr ⟨r, hr1, hpr⟩))))
                with ⟨suf, hpe, hne, hchain⟩
              refine ⟨n :: suf, ?_, by simp, step2 dirSegs n suf hne hig' hchain⟩
              rw [hpe]; simp
    · intro es dirSegs hs p hp
      cases es with
      | nil =>
        rw [walkSub] at hp
        simp [allPaths] at hp
      | cons e rest =>
        have he : sizeOf e ≤ N := by
          have : sizeOf e < sizeOf (e :: rest) := by simp; omega
          omega
        have hrest : sizeOf rest ≤ N := by
          have : sizeOf rest < sizeOf (e :: rest) := by simp
          omega
        rw [walkSub] at hp
        rcases List.mem_append.mp hp with hp1 | hp1
        · rcases List.mem_append.mp hp1 with hp2 | hp2
          · exact ih.1 e dirSegs he p (List.mem_append.mpr (Or.inl hp2))
          · exact ih.2 rest dirSegs hrest p (List.mem_append.mpr (Or.inl hp2))
        · rcases List.mem_map.mp hp1 with ⟨r, hr, hpr⟩
          rcases List.mem_append.mp hr with hr1 | hr1
          · exact ih.1 e dirSegs he p
              (List.mem_append.mpr (Or.inr (List.mem_map.mpr ⟨r, hr1, hpr⟩)))
          · exact ih.2 rest dirSegs hrest p
              (List.mem_append.mpr (Or.inr (List.mem_map.mpr ⟨r, hr1, hpr⟩)))

/-- C2: pruning is absolute — for every path the traversal discovers or
emits a record for, every proper ancestor directory was judged
not-ignored when it was checked at its own parent during the walk;
equivalently, once a directory is judged ignored, no path strictly under
it ever appears as a Traversal Entry or an output record, whatever any
ignore file beneath it says. -/
theorem c2_pruning_absolute (repo : List Entry) (cfg : Config)
    (spec : Option (List GitPattern)) (p : List String)
    (hp : p ∈ (walkDir repo cfg spec [] repo).entries ∨
          ∃ r ∈ (walkDir repo cfg spec [] repo).recs, p = r.dir ++ [r.name])
    (k : Nat) (hk : k + 1 < p.length) :
    isIgnored repo cfg spec (p.take (k + 1)) (p.take k) = false := by
  have haux := (walk_paths_aux repo cfg spec (sizeOf repo)).2 repo [] (le_refl _)
  have hone : ∀ (q : List String) (m : String), q = [m] → k + 1 < q.length → False := by
    intro q m hq hlen
    rw [hq] at hlen
    simp at hlen
  rcases hp with hp | hp
  · rw [walkDir] at hp
    rcases List.mem_append.mp hp with hp1 | hp1
    · rcases List.mem_map.mp hp1 with ⟨e, _, he⟩
      exact absurd hk (by rw [← he]; simp)
    · rcases haux p (List.mem_append.mpr (Or.inl hp1)) with ⟨suf, hpe, _, hchain⟩
      have := hchain k (by simpa [hpe] using hk)
      simpa [hpe] using this
  · rcases hp with ⟨r, hr, hpr⟩
    rw [walkDir] at hr
    rcases List.mem_append.mp hr with hr1 | hr1
    · have hd := (admitFiles_mem repo cfg spec [] _ r hr1).1
      refine absurd hk ?_
      rw [hpr, hd]
      simp
    · rcases haux p
        (List.mem_append.mpr (Or.inr (List.mem_map.mpr ⟨r, hr1, hpr.symm⟩)))
        with ⟨suf, hpe, _, hchain⟩
      have := hchain k (by simpa [hpe] using hk)
      simpa [hpe] using this

unseal globMatch in
/-- C2 witness: a record path of the nested scenario, whose one proper
ancestor `subdir` was judged not-ignored. -/
theorem c2_witness :
    (∃ r ∈ (walkDir nestedScenarioTree baseConfig
        (loadSpec nestedScenarioTree baseConfig) [] nestedScenarioTree).recs,
      ["subdir", "public.txt"] = r.dir ++ [r.name]) ∧
    isIgnored nestedScenarioTree baseConfig (loadSpec nestedScenarioTree baseConfig)
      (["subdir", "public.txt"].take 1) (["subdir", "public.txt"].take 0) = false :=
  ⟨by decide,
   c2_pruning_absolute nestedScenarioTree baseConfig
     (loadSpec nestedScenarioTree baseConfig) ["subdir", "public.txt"]
     (Or.inr (by decide)) 0 (by decide)⟩

/-! ## C7 -/

/-- C7 counterexample: a file with empty content does not end in a
newline, yet no newline is appended before the end delimiter (the code
guards the append with `if file_content and ...`). -/
theorem c7_counterexample :
    renderRecord baseConfig ⟨[], "empty.txt", ""⟩ =
      "--- FILE: empty.txt ---\n--- END FILE ---\n" ∧
    renderRecord baseConfig ⟨[], "empty.txt", ""⟩ ≠
      "--- FILE: empty.txt ---\n\n--- END FILE ---\n" := by decide

/-- C7 amended: a file already ending in a newline is not
double-terminated; a non-empty file not ending in a newline is emitted
with exactly one newline appended before the end delimiter; an empty file
is emitted with no newline between start and end delimiter lines. -/
theorem c7_amended_newline_handling (cfg : Config) (r : FileRec) :
    (endsNewline r.content = true →
      renderRecord cfg r =
        formatTemplate cfg.startDelimiter (pathStr (r.dir ++ [r.name])) ++ "\n" ++
          r.content ++
          formatTemplate cfg.endDelimiter (pathStr (r.dir ++ [r.name])) ++ "\n") ∧
    (r.content ≠ "" →
      endsNewline r.content = false →
      renderRecord cfg r =
        formatTemplate cfg.startDelimiter (pathStr (r.dir ++ [r.name])) ++ "\n" ++
          r.content ++ "\n" ++
          formatTemplate cfg.endDelimiter (pathStr (r.dir ++ [r.name])) ++ "\n") ∧
    (r.content = "" →
      renderRecord cfg r =
        formatTemplate cfg.startDelimiter (pathStr (r.dir ++ [r.name])) ++ "\n" ++
          formatTemplate cfg.endDelimiter (pathStr (r.dir ++ [r.name])) ++ "\n") := by
  refine ⟨fun h => ?_, fun h1 h2 => ?_, fun h => ?_⟩
  · simp [renderRecord, h]
  · have hb : (r.content == "") = false := by simpa using h1
    simp [renderRecord, hb, h2]
  · simp [renderRecord, h]

/-- C7 amended, witness at the three concrete contents. -/
theorem c7_amended_witness :
    endsNewline "x\n" = true ∧
    renderRecord baseConfig ⟨[], "a", "x\n"⟩ =
      formatTemplate baseConfig.startDelimiter (pathStr ([] ++ ["a"])) ++ "\n" ++
        "x\n" ++ formatTemplate baseConfig.endDelimiter (pathStr ([] ++ ["a"])) ++ "\n" :=
  ⟨by decide, (c7_amended_newline_handling baseConfig ⟨[], "a", "x\n"⟩).1 (by decide)⟩

/-! ## C5 -/

theorem findChild_cons (e : Entry) (es : List Entry) (m : String) :
    findChild (e :: es) m = if (entryName e == m) = true then some e else findChild es m := by
  by_cases h : (entryName e == m) = true <;> simp [findChild, List.find?_cons, h]

theorem setRootFile_setRootFile (t : List Entry) (n : String) (a b : String) :
    setRootFile (setRootFile t n a) n b = setRootFile t n b := by
  induction t with
  | nil => simp [setRootFile]
  | cons e rest ih =>
    cases e with
    | file m d =>
      by_cases hm : (m == n) = true
      · simp [setRootFile, hm]
      · simp [setRootFile, hm, ih]
    | dir m cs => simp [setRootFile, ih]

theorem findChild_setRootFile (n : String) (c : String) :
    ∀ (es : List Entry) (m : String), m ≠ n →
      findChild (setRootFile es n c) m = findChild es m := by
  intro es
  induction es with
  | nil =>
    intro m hm
    have h : (n == m) = false := by simpa using Ne.symm hm
    simp [setRootFile, findChild_cons, entryName, h, findChild]
  | cons e rest ih =>
    intro m hm
    cases e with
    | file k d =>
      by_cases hk : (k == n) = true
      · have hkeq : k = n := by simpa using hk
        subst hkeq
        have h1 : (k == m) = false := by simpa using Ne.symm hm
        simp [setRootFile, findChild_cons, entryName, h1]
      · rw [setRootFile, if_neg hk]
        rw [findChild_cons, findChild_cons]
        by_cases hm2 : (entryName (Entry.file k d) == m) = true
        · rw [if_pos hm2, if_pos hm2]
        · rw [if_neg hm2, if_neg hm2]
          exact ih m hm
    | dir k cs =>
      rw [setRootFile]
      rw [findChild_cons, findChild_cons]
      by_cases hm2 : (entryName (Entry.dir k cs) == m) = true
      · rw [if_pos hm2, if_pos hm2]
      · rw [if_neg hm2, if_neg hm2]
        exact ih m hm

theorem findDir_setRootFile (n : String) (c : String) :
    ∀ (es : List Entry) (m : String),
      findDir (setRootFile es n c) m = findDir es m := by
  intro es
  induction es with
  | nil =>
    intro m
    by_cases h : (n == m) = true <;>
      simp [setRootFile, findDir, findChild_cons, entryName, findChild, h]
  | cons e rest ih =>
    intro m
    cases e with
    | file k d =>
      by_cases hk : (k == n) = true
      · have hkeq : k = n := by simpa using hk
        subst hkeq
        by_cases hm2 : (k == m) = true <;>
          simp [setRootFile, findDir, findChild_cons, entryName, hm2]
      · by_cases hm2 : (k == m) = true
        · simp [setRootFile, hk, findDir, findChild_cons, entryName, hm2]
        · rw [setRootFile, if_neg hk]
          unfold findDir
          rw [findChild_cons, findChild_cons,
            if_neg (by simpa [entryName] using hm2),
            if_neg (by simpa [entryName] using hm2)]
          have h := ih m
          unfold findDir at h
          exact h
    | dir k cs =>
      by_cases hm2 : (k == m) = true
      · simp [setRootFile, findDir, findChild_cons, entryName, hm2]
      · rw [setRootFile]
        unfold findDir
        rw [findChild_cons, findChild_cons,
          if_neg (by simpa [entryName] using hm2),
          if_neg (by simpa [entryName] using hm2)]
        have h := ih m
        unfold findDir at h
        exact h

theorem findFile_setRootFile (n : String) (c : String) (es : List Entry) :
    ∀ (p : List String), p ≠ [n] →
      findFile (setRootFile es n c) p = findFile es p := by
  intro p hp
  match p with
  | [] => rfl
  | [m] =>
    have hm : m ≠ n := fun he => hp (by rw [he])
    rw [findFile, findFile, findChild_setRootFile n c es m hm]
  | m :: r :: rs =>
    simp only [findFile]
    rw [findDir_setRootFile n c es m]

theorem gitignoreSpecAt_setRootFile (t : List Entry) (n : String) (c : String)
    (hn : n ≠ ".gitignore") (anc : List String) :
    gitignoreSpecAt (setRootFile t n c) anc = gitignoreSpecAt t anc := by
  unfold gitignoreSpecAt
  rw [findFile_setRootFile n c t (anc ++ [".gitignore"]) ?_]
  intro he
  cases anc with
  | nil => exact hn (by simpa using he.symm)
  | cons a rest => simp at he

theorem nestedGitignoreSpecs_setRootFile (t : List Entry) (n : String) (c : String)
    (hn : n ≠ ".gitignore") (cfg : Config) (dirSegs : List String) :
    nestedGitignoreSpecs (setRootFile t n c) cfg dirSegs =
      nestedGitignoreSpecs t cfg dirSegs := by
  unfold nestedGitignoreSpecs
  split
  · exact List.filterMap_congr (fun anc _ => gitignoreSpecAt_setRootFile t n c hn anc)
  · rfl

theorem loadSpec_setRootFile (t : List Entry) (n : String) (c : String)
    (hn : n ≠ ".gitignore") (cfg : Config) :
    loadSpec (setRootFile t n c) cfg = loadSpec t cfg := by
  unfold loadSpec
  rw [findFile_setRootFile n c t [".gitignore"] (by simpa using Ne.symm hn)]

theorem isIgnored_setRootFile (t : List Entry) (n : String) (c : String)
    (hn : n ≠ ".gitignore") (cfg : Config) (spec : Option (List GitPattern))
    (relSegs dirSegs : List String) :
    isIgnored (setRootFile t n c) cfg spec relSegs dirSegs =
      isIgnored t cfg spec relSegs dirSegs := by
  unfold isIgnored
  rw [nestedGitignoreSpecs_setRootFile t n c hn cfg dirSegs]

def selfOutputConfig : Config := { baseConfig with outputInRepo := some ".gitignore" }

set_option maxRecDepth 4000 in
unseal globMatch in
/-- C5 counterexample: when the output artifact is the repository's root
`.gitignore`, the first run's document (which contains the bare line `x`
from `notes.txt`) becomes the second run's ignore-rule file, so the second
run drops the file `x` and produces a different document. -/
theorem c5_counterexample :
    (run selfOutputTree selfOutputConfig).doc ≠
      (run ((run selfOutputTree selfOutputConfig).tree) selfOutputConfig).doc := by decide

/-- C5 amended: running the engine twice over the unchanged tree with
unchanged configuration yields byte-identical output documents — also
when the output artifact lies inside the tree — provided the artifact's
location is not itself a per-directory ignore file (the root
`.gitignore`): the artifact is created before the structure diagram is
rendered and is excluded from the records by `is_ignored`, so the second
run sees the same filesystem the first run saw. -/
theorem c5_idempotent (t : List Entry) (cfg : Config)
    (h : cfg.outputInRepo ≠ some ".gitignore") :
    (run ((run t cfg).tree) cfg).doc = (run t cfg).doc := by
  cases hd : cfg.dryRun
  case true => simp [run, hd]
  case false =>
    cases ho : cfg.outputInRepo with
    | none =>
      have htree : (run t cfg).tree = t := by
        simp [run, hd, writeOutputDoc, touchOutput, ho]
      rw [htree]
    | some n =>
      have hn : n ≠ ".gitignore" := by
        intro he
        exact h (by rw [ho, he])
      have hdoc : ∀ u : List Entry, (run u cfg).doc =
          some ((if cfg.includeTree then
              generateTreeStructure cfg.repoName (touchOutput u cfg) none else "") ++
            docOfRecs cfg (walkDir (touchOutput u cfg) cfg (loadSpec u cfg) []
              (touchOutput u cfg)).recs) := by
        intro u
        simp [run, hd]
      rcases (show ∃ D, (run t cfg).tree = setRootFile t n D by
        simp only [run, hd, Bool.false_eq_true, if_false, writeOutputDoc, touchOutput, ho]
        exact ⟨_, setRootFile_setRootFile t n "" _⟩) with ⟨D, htree⟩
      rw [hdoc, hdoc, htree]
      have ht1 : touchOutput (setRootFile t n D) cfg = touchOutput t cfg := by
        simp only [touchOutput, ho]
        exact setRootFile_setRootFile t n D ""
      have hsp : loadSpec (setRootFile t n D) cfg = loadSpec t cfg :=
        loadSpec_setRootFile t n D hn cfg
      rw [ht1, hsp]

unseal globMatch in
/-- C5 witness: with the artifact at `dump.txt` inside the tree, the two
runs' documents agree. -/
theorem c5_witness :
    ({ baseConfig with outputInRepo := some "dump.txt" } : Config).outputInRepo ≠
      some ".gitignore" ∧
    (run ((run selfOutputTree { baseConfig with outputInRepo := some "dump.txt" }).tree)
        { baseConfig with outputInRepo := some "dump.txt" }).doc =
      (run selfOutputTree { baseConfig with outputInRepo := some "dump.txt" }).doc :=
  ⟨by decide, c5_idempotent selfOutputTree _ (by decide)⟩

/-! ## C6 -/

mutual

/-- Whether every file in a subtree reads successfully. -/
def entryClean : Entry → Bool
  | .file _ d => !d.readError
  | .dir _ cs => listClean cs
termination_by structural e => e

def listClean : List Entry → Bool
  | [] => true
  | e :: es => entryClean e && listClean es
termination_by structural es => es

end

/-- The contribution of one candidate file to the processed count: 1 when
it survives every filter of the per-file loop (and, in a real run, its
read succeeds), else 0. -/
def fileContrib (repo : List Entry) (cfg : Config) (spec : Option (List GitPattern))
    (dirSegs : List String) (x : String × FileData) : Nat :=
  if isIgnored repo cfg spec (dirSegs ++ [x.1]) dirSegs then 0
  else if !matchesInclude cfg (pathStr (dirSegs ++ [x.1])) then 0
  else if cfg.maxFileSize < x.2.content.utf8ByteSize then 0
  else if isBinary x.2.content then 0
  else if cfg.dryRun then 1
  else if x.2.readError then 0
  else 1

theorem admitFiles_count_sum (repo : List Entry) (cfg : Config)
    (spec : Option (List GitPattern)) (d : List String) :
    ∀ l, (admitFiles repo cfg spec d l).2 =
      (l.map (fileContrib repo cfg spec d)).sum := by
  intro l
  induction l with
  | nil => rw [admitFiles]; simp
  | cons x rest ih =>
    obtain ⟨n, fd⟩ := x
    rw [admitFiles]
    simp only [List.map_cons, List.sum_cons]
    split
    · rename_i h1
      have hh : fileContrib repo cfg spec d (n, fd) = 0 := by
        rw [fileContrib]
        simp [h1]
      rw [hh]
      simpa using ih
    · rename_i h1
      split
      · rename_i h2
        have hh : fileContrib repo cfg spec d (n, fd) = 0 := by
          rw [fileContrib]
          simp [h1, h2]
        rw [hh]
        simpa using ih
      · rename_i h2
        split
        · rename_i h3
          have hh : fileContrib repo cfg spec d (n, fd) = 0 := by
            rw [fileContrib]
            simp [h1, h2, h3]
          rw [hh]
          simpa using ih
        · rename_i h3
          split
          · rename_i h4
            have hh : fileContrib repo cfg spec d (n, fd) = 0 := by
              rw [fileContrib]
              simp [h1, h2, h3, h4]
            rw [hh]
            simpa using ih
          · rename_i h4
            split
            · rename_i h5
              have hh : fileContrib repo cfg spec d (n, fd) = 1 := by
                rw [fileContrib]
                simp [h1, h2, h3, h4, h5]
              rw [hh]
              rw [ih]
              omega
            · rename_i h5
              split
              · rename_i h6
                have hh : fileContrib repo cfg spec d (n, fd) = 0 := by
                  rw [fileContrib]
                  simp [h1, h2, h3, h4, h5, h6]
                rw [hh]
                simpa using ih
              · rename_i h6
                have hh : fileContrib repo cfg spec d (n, fd) = 1 := by
                  rw [fileContrib]
                  simp [h1, h2, h3, h4, h5, h6]
                rw [hh]
                rw [ih]
                omega

theorem filesOf_clean (cs : List Entry) (h : listClean cs = true) :
    ∀ x ∈ filesOf cs, x.2.readError = false := by
  induction cs with
  | nil => intro x hx; simp [filesOf] at hx
  | cons e rest ih =>
    rw [listClean] at h
    simp only [Bool.and_eq_true] at h
    rcases h with ⟨he, hrest⟩
    intro x hx
    cases e with
    | file n d =>
      rw [filesOf, List.filterMap_cons] at hx
      dsimp only at hx
      rcases List.mem_cons.mp hx with hx0 | hx0
      · rw [hx0]
        rw [entryClean] at he
        simpa using he
      · exact ih hrest x hx0
    | dir n cs2 =>
      rw [filesOf, List.filterMap_cons] at hx
      dsimp only at hx
      exact ih hrest x hx

theorem listClean_setRootFile (n : String) (c : String) :
    ∀ t, listClean t = true → listClean (setRootFile t n c) = true := by
  intro t
  induction t with
  | nil => intro _; simp [setRootFile, listClean, entryClean]
  | cons e rest ih =>
    intro h
    rw [listClean] at h
    simp only [Bool.and_eq_true] at h
    rcases h with ⟨he, hrest⟩
    cases e with
    | file m d =>
      by_cases hm : (m == n) = true
      · rw [setRootFile, if_pos hm, listClean]
        simp [entryClean, hrest]
      · rw [setRootFile, if_neg hm, listClean]
        simp [he, ih hrest]
    | dir m cs =>
      rw [setRootFile, listClean]
      simp [he, ih hrest]

/-- Counts agree between two (repo, config) pairs that judge ignoring
identically and give every successfully readable file the same
contribution, on any subtree whose reads all succeed. -/
theorem walk_count_congr (repo1 repo2 : List Entry) (cfg1 cfg2 : Config)
    (spec : Option (List GitPattern))
    (hig : ∀ r d, isIgnored repo1 cfg1 spec r d = isIgnored repo2 cfg2 spec r d)
    (hcontrib : ∀ d x, x.2.readError = false →
      fileContrib repo1 cfg1 spec d x = fileContrib repo2 cfg2 spec d x) :
    ∀ N : Nat,
      (∀ (e : Entry) (dirSegs : List String), sizeOf e ≤ N → entryClean e = true →
        (entryWalk repo1 cfg1 spec e dirSegs).count =
          (entryWalk repo2 cfg2 spec e dirSegs).count) ∧
      (∀ (es : List Entry) (dirSegs : List String), sizeOf es ≤ N → listClean es = true →
        (walkSub repo1 cfg1 spec es dirSegs).count =
          (walkSub repo2 cfg2 spec es dirSegs).count) := by
  have hfile : ∀ (dirSegs : List String) (cs : List Entry), listClean cs = true →
      (filePass repo1 cfg1 spec dirSegs cs).2 = (filePass repo2 cfg2 spec dirSegs cs).2 := by
    intro dirSegs cs hcs
    unfold filePass
    rw [admitFiles_count_sum, admitFiles_count_sum]
    congr 1
    apply List.map_congr_left
    intro x hx
    have hxf : x ∈ filesOf cs := (sortBy_perm fileNameLe (filesOf cs)).mem_iff.mp hx
    exact hcontrib dirSegs x (filesOf_clean cs hcs x hxf)
  intro N
  induction N with
  | zero =>
    constructor
    · intro e dirSegs hs
      exact absurd hs (by cases e <;> simp)
    · intro es dirSegs hs
      exact absurd hs (by cases es <;> simp)
  | succ N ih =>
    constructor
    · intro e dirSegs hs hc
      cases e with
      | file n d => rw [entryWalk, entryWalk]
      | dir n cs =>
        rw [entryWalk, entryWalk, hig (dirSegs ++ [n]) dirSegs]
        rw [entryClean] at hc
        have hcs : sizeOf cs ≤ N := by
          have : sizeOf cs < sizeOf (Entry.dir n cs) := by simp
          omega
        split
        · rfl
        · simp only []
          rw [hfile (dirSegs ++ [n]) cs hc, ih.2 cs (dirSegs ++ [n]) hcs hc]
    · intro es dirSegs hs hc
      cases es with
      | nil => rw [walkSub, walkSub]
      | cons e rest =>
        rw [listClean] at hc
        simp only [Bool.and_eq_true] at hc
        rcases hc with ⟨he, hrest⟩
        have h1 : sizeOf e ≤ N := by
          have : sizeOf e < sizeOf (e :: rest) := by simp; omega
          omega
        have h2 : sizeOf rest ≤ N := by
          have : sizeOf rest < sizeOf (e :: rest) := by simp
          omega
        rw [walkSub, walkSub]
        simp only []
        rw [ih.1 e dirSegs h1 he, ih.2 rest dirSegs h2 hrest]

theorem admitFiles_setRootFile (t : List Entry) (n : String) (c : String)
    (hn : n ≠ ".gitignore") (cfg : Config) (spec : Option (List GitPattern))
    (d : List String) :
    ∀ l, admitFiles (setRootFile t n c) cfg spec d l = admitFiles t cfg spec d l := by
  intro l
  induction l with
  | nil => rw [admitFiles, admitFiles]
  | cons x rest ih =>
    obtain ⟨m, fd⟩ := x
    rw [admitFiles, admitFiles, ih, isIgnored_setRootFile t n c hn]

theorem filePass_setRootFile (t : List Entry) (n : String) (c : String)
    (hn : n ≠ ".gitignore") (cfg : Config) (spec : Option (List GitPattern))
    (d : List String) (cs : List Entry) :
    filePass (setRootFile t n c) cfg spec d cs = filePass t cfg spec d cs := by
  unfold filePass
  rw [admitFiles_setRootFile t n c hn]

theorem walk_repo_setRootFile (t : List Entry) (n : String) (c : String)
    (hn : n ≠ ".gitignore") (cfg : Config) (spec : Option (List GitPattern)) :
    ∀ N : Nat,
      (∀ (e : Entry) (dirSegs : List String), sizeOf e ≤ N →
        entryWalk (setRootFile t n c) cfg spec e dirSegs = entryWalk t cfg spec e dirSegs) ∧
      (∀ (es : List Entry) (dirSegs : List String), sizeOf es ≤ N →
        walkSub (setRootFile t n c) cfg spec es dirSegs = walkSub t cfg spec es dirSegs) := by
  intro N
  induction N with
  | zero =>
    constructor
    · intro e dirSegs hs
      exact absurd hs (by cases e <;> simp)
    · intro es dirSegs hs
      exact absurd hs (by cases es <;> simp)
  | succ N ih =>
    constructor
    · intro e dirSegs hs
      cases e with
      | file m d => rw [entryWalk, entryWalk]
      | dir m cs =>
        have hcs : sizeOf cs ≤ N := by
          have : sizeOf cs < sizeOf (Entry.dir m cs) := by simp
          omega
        rw [entryWalk, entryWalk, isIgnored_setRootFile t n c hn,
          filePass_setRootFile t n c hn, ih.2 cs (dirSegs ++ [m]) hcs]
    · intro es dirSegs hs
      cases es with
      | nil => rw [walkSub, walkSub]
      | cons e rest =>
        have h1 : sizeOf e ≤ N := by
          have : sizeOf e < sizeOf (e :: rest) := by simp; omega
          omega
        have h2 : sizeOf rest ≤ N := by
          have : sizeOf rest < sizeOf (e :: rest) := by simp
          omega
        rw [walkSub, walkSub, ih.1 e dirSegs h1, ih.2 rest dirSegs h2]

theorem walkSub_count_setRootFile (repo : List Entry) (cfg : Config)
    (spec : Option (List GitPattern)) (n : String) (c : String) :
    ∀ (es : List Entry) (dirSegs : List String),
      (walkSub repo cfg spec (setRootFile es n c) dirSegs).count =
        (walkSub repo cfg spec es dirSegs).count := by
  intro es
  induction es with
  | nil =>
    intro dirSegs
    simp [setRootFile, walkSub, entryWalk]
  | cons e rest ih =>
    intro dirSegs
    cases e with
    | file m d =>
      by_cases hm : (m == n) = true
      · rw [setRootFile, if_pos hm, walkSub, walkSub, entryWalk, entryWalk]
      · rw [setRootFile, if_neg hm, walkSub, walkSub]
        dsimp only
        rw [ih dirSegs]
    | dir m cs =>
      rw [setRootFile, walkSub, walkSub]
      dsimp only
      rw [ih dirSegs]

theorem fileContrib_output_zero (repo : List Entry) (cfg : Config)
    (spec : Option (List GitPattern)) (n : String) (ho : cfg.outputInRepo = some n)
    (fd : FileData) : fileContrib repo cfg spec [] (n, fd) = 0 := by
  have hig : isIgnored repo cfg spec ([] ++ [n]) [] = true := by
    unfold isIgnored
    split
    · rfl
    · rw [if_pos]
      rw [ho]
      simp
  unfold fileContrib
  rw [if_pos hig]

theorem sum_contrib_setRootFile (F : String × FileData → Nat) (n : String) (c : String)
    (hzero : ∀ fd, F (n, fd) = 0) :
    ∀ es, ((filesOf (setRootFile es n c)).map F).sum = ((filesOf es).map F).sum := by
  intro es
  induction es with
  | nil =>
    simp [setRootFile, filesOf, hzero]
  | cons e rest ih =>
    cases e with
    | file m d =>
      by_cases hm : (m == n) = true
      · have hmeq : m = n := by simpa using hm
        subst hmeq
        rw [setRootFile, if_pos hm]
        simp only [filesOf, List.filterMap_cons]
        simp [hzero]
      · rw [setRootFile, if_neg hm]
        simp only [filesOf, List.filterMap_cons]
        simp only [List.map_cons, List.sum_cons]
        exact congrArg (F (m, d) + ·) ih
    | dir m cs =>
      rw [setRootFile]
      simp only [filesOf, List.filterMap_cons]
      exact ih

theorem sum_sortBy (F : α → Nat) (le : α → α → Bool) (l : List α) :
    ((sortBy le l).map F).sum = (l.map F).sum :=
  ((sortBy_perm le l).map F).sum_eq

theorem loadSpec_dryRun (t : List Entry) (cfg : Config) (b : Bool) :
    loadSpec t { cfg with dryRun := b } = loadSpec t cfg := rfl

theorem isIgnored_dryRun (repo : List Entry) (cfg : Config)
    (spec : Option (List GitPattern)) (r d : List String) (b : Bool) :
    isIgnored repo { cfg with dryRun := b } spec r d = isIgnored repo cfg spec r d := rfl

theorem matchesInclude_dryRun (cfg : Config) (b : Bool) (rel : String) :
    matchesInclude { cfg with dryRun := b } rel = matchesInclude cfg rel := rfl

theorem fileContrib_dry (repo : List Entry) (cfg : Config)
    (spec : Option (List GitPattern)) (d : List String) (x : String × FileData)
    (herr : x.2.readError = false) :
    fileContrib repo { cfg with dryRun := true } spec d x =
      fileContrib repo { cfg with dryRun := false } spec d x := by
  unfold fileContrib
  simp only [isIgnored_dryRun, matchesInclude_dryRun]
  dsimp only
  simp [herr]

/-- Whether one candidate file survives every pre-read filter of the
per-file loop — not ignored, passing the allow-list, within the size
ceiling, and not binary — so that the run would admit it (and a real run
would go on to read it). -/
def fileAdmitted (repo : List Entry) (cfg : Config) (spec : Option (List GitPattern))
    (dirSegs : List String) (x : String × FileData) : Bool :=
  !isIgnored repo cfg spec (dirSegs ++ [x.1]) dirSegs &&
    (matchesInclude cfg (pathStr (dirSegs ++ [x.1])) &&
      (!decide (cfg.maxFileSize < x.2.content.utf8ByteSize) &&
        !isBinary x.2.content))

/-- Whether, among the given candidate files of one visited directory,
every file the run would admit reads successfully.  Files rejected by a
pre-read filter are unconstrained: neither run ever reads them. -/
def filesReadClean (repo : List Entry) (cfg : Config) (spec : Option (List GitPattern))
    (dirSegs : List String) : List (String × FileData) → Bool
  | [] => true
  | x :: rest =>
    (!fileAdmitted repo cfg spec dirSegs x || !x.2.readError) &&
      filesReadClean repo cfg spec dirSegs rest

mutual

/-- Whether every admitted file in the subtree below one scanned child
reads successfully.  A pruned (ignored) directory is unconstrained — the
walk never enters it — and a surviving directory constrains its own file
pass and, recursively, its subdirectories. -/
def entryAdmitClean (repo : List Entry) (cfg : Config) (spec : Option (List GitPattern))
    (e : Entry) (dirSegs : List String) : Bool :=
  match e with
  | .file _ _ => true
  | .dir n cs =>
    if isIgnored repo cfg spec (dirSegs ++ [n]) dirSegs then true
    else
      filesReadClean repo cfg spec (dirSegs ++ [n]) (filesOf cs) &&
        listAdmitClean repo cfg spec cs (dirSegs ++ [n])
termination_by structural e

def listAdmitClean (repo : List Entry) (cfg : Config) (spec : Option (List GitPattern))
    (es : List Entry) (dirSegs : List String) : Bool :=
  match es with
  | [] => true
  | e :: rest =>
    entryAdmitClean repo cfg spec e dirSegs && listAdmitClean repo cfg spec rest dirSegs
termination_by structural es

end

/-- Whether every file the run over `t` admits — surviving the
ignore/include/size/binary filters in a directory the walk actually
visits — reads successfully.  Files the filters reject, and files inside
pruned directories, are unconstrained. -/
def runAdmitClean (t : List Entry) (cfg : Config) : Bool :=
  filesReadClean t cfg (loadSpec t cfg) [] (filesOf t) &&
    listAdmitClean t cfg (loadSpec t cfg) t []

theorem filesReadClean_mem (repo : List Entry) (cfg : Config)
    (spec : Option (List GitPattern)) (d : List String) :
    ∀ l, filesReadClean repo cfg spec d l = true →
      ∀ x ∈ l, fileAdmitted repo cfg spec d x = true → x.2.readError = false := by
  intro l
  induction l with
  | nil =>
    intro _ x hx
    exact absurd hx (by simp)
  | cons y rest ih =>
    intro h x hx hadm
    rw [filesReadClean] at h
    simp only [Bool.and_eq_true] at h
    rcases h with ⟨hy, hrest⟩
    rcases List.mem_cons.mp hx with hxy | hxr
    · subst hxy
      cases hr : x.2.readError
      · rfl
      · rw [hadm, hr] at hy
        simp at hy
    · exact ih hrest x hxr hadm

theorem fileContrib_dry_admitted (repo : List Entry) (cfg : Config)
    (spec : Option (List GitPattern)) (d : List String) (x : String × FileData)
    (h : fileAdmitted repo cfg spec d x = true → x.2.readError = false) :
    fileContrib repo { cfg with dryRun := true } spec d x =
      fileContrib repo { cfg with dryRun := false } spec d x := by
  unfold fileContrib
  simp only [isIgnored_dryRun, matchesInclude_dryRun]
  dsimp only
  by_cases h1 : isIgnored repo cfg spec (d ++ [x.1]) d = true
  · simp [h1]
  · by_cases h2 : matchesInclude cfg (pathStr (d ++ [x.1])) = true
    · by_cases h3 : cfg.maxFileSize < x.2.content.utf8ByteSize
      · simp [h1, h2, h3]
      · by_cases h4 : isBinary x.2.content = true
        · simp [h1, h2, h3, h4]
        · have herr : x.2.readError = false := h (by
            unfold fileAdmitted
            simp [h1, h2, h3, h4])
          simp [h1, h2, h3, h4, herr]
    · simp [h1, h2]

theorem walk_count_admitted_congr (repo0 repo1 repo2 : List Entry) (cfg0 cfg1 cfg2 : Config)
    (spec : Option (List GitPattern))
    (hig0 : ∀ r d, isIgnored repo0 cfg0 spec r d = isIgnored repo1 cfg1 spec r d)
    (hig : ∀ r d, isIgnored repo1 cfg1 spec r d = isIgnored repo2 cfg2 spec r d)
    (hcontrib : ∀ d x, (fileAdmitted repo0 cfg0 spec d x = true → x.2.readError = false) →
      fileContrib repo1 cfg1 spec d x = fileContrib repo2 cfg2 spec d x) :
    ∀ N : Nat,
      (∀ (e : Entry) (dirSegs : List String), sizeOf e ≤ N →
        entryAdmitClean repo0 cfg0 spec e dirSegs = true →
        (entryWalk repo1 cfg1 spec e dirSegs).count =
          (entryWalk repo2 cfg2 spec e dirSegs).count) ∧
      (∀ (es : List Entry) (dirSegs : List String), sizeOf es ≤ N →
        listAdmitClean repo0 cfg0 spec es dirSegs = true →
        (walkSub repo1 cfg1 spec es dirSegs).count =
          (walkSub repo2 cfg2 spec es dirSegs).count) := by
  have hfile : ∀ (dirSegs : List String) (cs : List Entry),
      filesReadClean repo0 cfg0 spec dirSegs (filesOf cs) = true →
      (filePass repo1 cfg1 spec dirSegs cs).2 = (filePass repo2 cfg2 spec dirSegs cs).2 := by
    intro dirSegs cs hcs
    unfold filePass
    rw [admitFiles_count_sum, admitFiles_count_sum]
    congr 1
    apply List.map_congr_left
    intro x hx
    have hxf : x ∈ filesOf cs := (sortBy_perm fileNameLe (filesOf cs)).mem_iff.mp hx
    exact hcontrib dirSegs x (filesReadClean_mem repo0 cfg0 spec dirSegs (filesOf cs) hcs x hxf)
  intro N
  induction N with
  | zero =>
    constructor
    · intro e dirSegs hs
      exact absurd hs (by cases e <;> simp)
    · intro es dirSegs hs
      exact absurd hs (by cases es <;> simp)
  | succ N ih =>
    constructor
    · intro e dirSegs hs hc
      cases e with
      | file n d => rw [entryWalk, entryWalk]
      | dir n cs =>
        rw [entryWalk, entryWalk, hig (dirSegs ++ [n]) dirSegs]
        rw [entryAdmitClean, hig0 (dirSegs ++ [n]) dirSegs,
          hig (dirSegs ++ [n]) dirSegs] at hc
        have hcs : sizeOf cs ≤ N := by
          have : sizeOf cs < sizeOf (Entry.dir n cs) := by simp
          omega
        split
        · rfl
        · rename_i hneg
          rw [if_neg hneg] at hc
          simp only [Bool.and_eq_true] at hc
          rcases hc with ⟨hfc, hlc⟩
          simp only []
          rw [hfile (dirSegs ++ [n]) cs hfc, ih.2 cs (dirSegs ++ [n]) hcs hlc]
    · intro es dirSegs hs hc
      cases es with
      | nil => rw [walkSub, walkSub]
      | cons e rest =>
        rw [listAdmitClean] at hc
        simp only [Bool.and_eq_true] at hc
        rcases hc with ⟨he, hrest⟩
        have h1 : sizeOf e ≤ N := by
          have : sizeOf e < sizeOf (e :: rest) := by simp; omega
          omega
        have h2 : sizeOf rest ≤ N := by
          have : sizeOf rest < sizeOf (e :: rest) := by simp
          omega
        rw [walkSub, walkSub]
        simp only []
        rw [ih.1 e dirSegs h1 he, ih.2 rest dirSegs h2 hrest]

theorem walkDir_count_admitted_congr (repo0 repo1 repo2 : List Entry) (cfg0 cfg1 cfg2 : Config)
    (spec : Option (List GitPattern))
    (hig0 : ∀ r d, isIgnored repo0 cfg0 spec r d = isIgnored repo1 cfg1 spec r d)
    (hig : ∀ r d, isIgnored repo1 cfg1 spec r d = isIgnored repo2 cfg2 spec r d)
    (hcontrib : ∀ d x, (fileAdmitted repo0 cfg0 spec d x = true → x.2.readError = false) →
      fileContrib repo1 cfg1 spec d x = fileContrib repo2 cfg2 spec d x)
    (dirSegs : List String) (children : List Entry)
    (hfc : filesReadClean repo0 cfg0 spec dirSegs (filesOf children) = true)
    (hlc : listAdmitClean repo0 cfg0 spec children dirSegs = true) :
    (walkDir repo1 cfg1 spec dirSegs children).count =
      (walkDir repo2 cfg2 spec dirSegs children).count := by
  rw [walkDir, walkDir]
  dsimp only
  have hfile : (filePass repo1 cfg1 spec dirSegs children).2 =
      (filePass repo2 cfg2 spec dirSegs children).2 := by
    unfold filePass
    rw [admitFiles_count_sum, admitFiles_count_sum]
    congr 1
    apply List.map_congr_left
    intro x hx
    have hxf : x ∈ filesOf children :=
      (sortBy_perm fileNameLe (filesOf children)).mem_iff.mp hx
    exact hcontrib dirSegs x
      (filesReadClean_mem repo0 cfg0 spec dirSegs (filesOf children) hfc x hxf)
  rw [hfile,
    (walk_count_admitted_congr repo0 repo1 repo2 cfg0 cfg1 cfg2 spec hig0 hig hcontrib
      (sizeOf children)).2 children dirSegs (le_refl _) hlc]

theorem walkDir_count_congr (repo1 repo2 : List Entry) (cfg1 cfg2 : Config)
    (spec : Option (List GitPattern))
    (hig : ∀ r d, isIgnored repo1 cfg1 spec r d = isIgnored repo2 cfg2 spec r d)
    (hcontrib : ∀ d x, x.2.readError = false →
      fileContrib repo1 cfg1 spec d x = fileContrib repo2 cfg2 spec d x)
    (dirSegs : List String) (children : List Entry) (hclean : listClean children = true) :
    (walkDir repo1 cfg1 spec dirSegs children).count =
      (walkDir repo2 cfg2 spec dirSegs children).count := by
  rw [walkDir, walkDir]
  dsimp only
  have hfile : (filePass repo1 cfg1 spec dirSegs children).2 =
      (filePass repo2 cfg2 spec dirSegs children).2 := by
    unfold filePass
    rw [admitFiles_count_sum, admitFiles_count_sum]
    congr 1
    apply List.map_congr_left
    intro x hx
    have hxf : x ∈ filesOf children :=
      (sortBy_perm fileNameLe (filesOf children)).mem_iff.mp hx
    exact hcontrib dirSegs x (filesOf_clean children hclean x hxf)
  rw [hfile,
    (walk_count_congr repo1 repo2 cfg1 cfg2 spec hig hcontrib (sizeOf children)).2
      children dirSegs (le_refl _) hclean]

/-- C6 amended: a dry run creates no output artifact; and provided every
file the run admits — surviving the ignore/include/size/binary filters in
a directory the walk actually visits — reads successfully, and the output
artifact is not located at the root ignore file's own path, a dry run
reports the same inclusion count as the otherwise identical real run.
Files a filter rejects, and files inside pruned directories, may fail to
read: neither run ever reads them.  (A transient read failure of an
admitted file is counted by the dry run but skipped by the real run — the
counterexample — and an artifact written to `.gitignore` would change the
ignore rules the real run's walk reads back from the tree.) -/
theorem c6_amended_dry_run (t : List Entry) (cfg : Config)
    (hclean : runAdmitClean t cfg = true) (hout : cfg.outputInRepo ≠ some ".gitignore") :
    (run t { cfg with dryRun := true }).count =
      (run t { cfg with dryRun := false }).count ∧
    (run t { cfg with dryRun := true }).doc = none := by
  obtain ⟨rn, oir, ips, incs, ug, sd, ed, dr, mfs, it⟩ := cfg
  refine ⟨?_, by simp [run]⟩
  unfold runAdmitClean at hclean
  simp only [Bool.and_eq_true] at hclean
  obtain ⟨hfc, hlc⟩ := hclean
  cases oir with
  | none =>
    have hig0 : ∀ r d, isIgnored t { repoName := rn, outputInRepo := none, ignorePatterns := ips, includePatterns := incs, useGitignore := ug, startDelimiter := sd, endDelimiter := ed, dryRun := dr, maxFileSize := mfs, includeTree := it } (loadSpec t { repoName := rn, outputInRepo := none, ignorePatterns := ips, includePatterns := incs, useGitignore := ug, startDelimiter := sd, endDelimiter := ed, dryRun := true, maxFileSize := mfs, includeTree := it }) r d = isIgnored t { repoName := rn, outputInRepo := none, ignorePatterns := ips, includePatterns := incs, useGitignore := ug, startDelimiter := sd, endDelimiter := ed, dryRun := true, maxFileSize := mfs, includeTree := it } (loadSpec t { repoName := rn, outputInRepo := none, ignorePatterns := ips, includePatterns := incs, useGitignore := ug, startDelimiter := sd, endDelimiter := ed, dryRun := true, maxFileSize := mfs, includeTree := it }) r d := fun _ _ => rfl
    have hig : ∀ r d, isIgnored t { repoName := rn, outputInRepo := none, ignorePatterns := ips, includePatterns := incs, useGitignore := ug, startDelimiter := sd, endDelimiter := ed, dryRun := true, maxFileSize := mfs, includeTree := it } (loadSpec t { repoName := rn, outputInRepo := none, ignorePatterns := ips, includePatterns := incs, useGitignore := ug, startDelimiter := sd, endDelimiter := ed, dryRun := true, maxFileSize := mfs, includeTree := it }) r d = isIgnored t { repoName := rn, outputInRepo := none, ignorePatterns := ips, includePatterns := incs, useGitignore := ug, startDelimiter := sd, endDelimiter := ed, dryRun := false, maxFileSize := mfs, includeTree := it } (loadSpec t { repoName := rn, outputInRepo := none, ignorePatterns := ips, includePatterns := incs, useGitignore := ug, startDelimiter := sd, endDelimiter := ed, dryRun := true, maxFileSize := mfs, includeTree := it }) r d := fun _ _ => rfl
    have hcontrib : ∀ d x, (fileAdmitted t { repoName := rn, outputInRepo := none, ignorePatterns := ips, includePatterns := incs, useGitignore := ug, startDelimiter := sd, endDelimiter := ed, dryRun := dr, maxFileSize := mfs, includeTree := it } (loadSpec t { repoName := rn, outputInRepo := none, ignorePatterns := ips, includePatterns := incs, useGitignore := ug, startDelimiter := sd, endDelimiter := ed, dryRun := true, maxFileSize := mfs, includeTree := it }) d x = true → x.2.readError = false) → fileContrib t { repoName := rn, outputInRepo := none, ignorePatterns := ips, includePatterns := incs, useGitignore := ug, startDelimiter := sd, endDelimiter := ed, dryRun := true, maxFileSize := mfs, includeTree := it } (loadSpec t { repoName := rn, outputInRepo := none, ignorePatterns := ips, includePatterns := incs, useGitignore := ug, startDelimiter := sd, endDelimiter := ed, dryRun := true, maxFileSize := mfs, includeTree := it }) d x = fileContrib t { repoName := rn, outputInRepo := none, ignorePatterns := ips, includePatterns := incs, useGitignore := ug, startDelimiter := sd, endDelimiter := ed, dryRun := false, maxFileSize := mfs, includeTree := it } (loadSpec t { repoName := rn, outputInRepo := none, ignorePatterns := ips, includePatterns := incs, useGitignore := ug, startDelimiter := sd, endDelimiter := ed, dryRun := true, maxFileSize := mfs, includeTree := it }) d x := fun d x h => fileContrib_dry_admitted t { repoName := rn, outputInRepo := none, ignorePatterns := ips, includePatterns := incs, useGitignore := ug, startDelimiter := sd, endDelimiter := ed, dryRun := dr, maxFileSize := mfs, includeTree := it } (loadSpec t { repoName := rn, outputInRepo := none, ignorePatterns := ips, includePatterns := incs, useGitignore := ug, startDelimiter := sd, endDelimiter := ed, dryRun := true, maxFileSize := mfs, includeTree := it }) d x h
    exact walkDir_count_admitted_congr t t t { repoName := rn, outputInRepo := none, ignorePatterns := ips, includePatterns := incs, useGitignore := ug, startDelimiter := sd, endDelimiter := ed, dryRun := dr, maxFileSize := mfs, includeTree := it } { repoName := rn, outputInRepo := none, ignorePatterns := ips, includePatterns := incs, useGitignore := ug, startDelimiter := sd, endDelimiter := ed, dryRun := true, maxFileSize := mfs, includeTree := it } { repoName := rn, outputInRepo := none, ignorePatterns := ips, includePatterns := incs, useGitignore := ug, startDelimiter := sd, endDelimiter := ed, dryRun := false, maxFileSize := mfs, includeTree := it } (loadSpec t { repoName := rn, outputInRepo := none, ignorePatterns := ips, includePatterns := incs, useGitignore := ug, startDelimiter := sd, endDelimiter := ed, dryRun := true, maxFileSize := mfs, includeTree := it }) hig0 hig hcontrib [] t hfc hlc
  | some n =>
    have hn : n ≠ ".gitignore" := fun he => hout (by rw [he])
    have hig0 : ∀ r d, isIgnored t { repoName := rn, outputInRepo := some n, ignorePatterns := ips, includePatterns := incs, useGitignore := ug, startDelimiter := sd, endDelimiter := ed, dryRun := dr, maxFileSize := mfs, includeTree := it } (loadSpec t { repoName := rn, outputInRepo := some n, ignorePatterns := ips, includePatterns := incs, useGitignore := ug, startDelimiter := sd, endDelimiter := ed, dryRun := true, maxFileSize := mfs, includeTree := it }) r d = isIgnored t { repoName := rn, outputInRepo := some n, ignorePatterns := ips, includePatterns := incs, useGitignore := ug, startDelimiter := sd, endDelimiter := ed, dryRun := true, maxFileSize := mfs, includeTree := it } (loadSpec t { repoName := rn, outputInRepo := some n, ignorePatterns := ips, includePatterns := incs, useGitignore := ug, startDelimiter := sd, endDelimiter := ed, dryRun := true, maxFileSize := mfs, includeTree := it }) r d := fun _ _ => rfl
    have hig : ∀ r d, isIgnored t { repoName := rn, outputInRepo := some n, ignorePatterns := ips, includePatterns := incs, useGitignore := ug, startDelimiter := sd, endDelimiter := ed, dryRun := true, maxFileSize := mfs, includeTree := it } (loadSpec t { repoName := rn, outputInRepo := some n, ignorePatterns := ips, includePatterns := incs, useGitignore := ug, startDelimiter := sd, endDelimiter := ed, dryRun := true, maxFileSize := mfs, includeTree := it }) r d = isIgnored t { repoName := rn, outputInRepo := some n, ignorePatterns := ips, includePatterns := incs, useGitignore := ug, startDelimiter := sd, endDelimiter := ed, dryRun := false, maxFileSize := mfs, includeTree := it } (loadSpec t { repoName := rn, outputInRepo := some n, ignorePatterns := ips, includePatterns := incs, useGitignore := ug, startDelimiter := sd, endDelimiter := ed, dryRun := true, maxFileSize := mfs, includeTree := it }) r d := fun _ _ => rfl
    have hcontrib : ∀ d x, (fileAdmitted t { repoName := rn, outputInRepo := some n, ignorePatterns := ips, includePatterns := incs, useGitignore := ug, startDelimiter := sd, endDelimiter := ed, dryRun := dr, maxFileSize := mfs, includeTree := it } (loadSpec t { repoName := rn, outputInRepo := some n, ignorePatterns := ips, includePatterns := incs, useGitignore := ug, startDelimiter := sd, endDelimiter := ed, dryRun := true, maxFileSize := mfs, includeTree := it }) d x = true → x.2.readError = false) → fileContrib t { repoName := rn, outputInRepo := some n, ignorePatterns := ips, includePatterns := incs, useGitignore := ug, startDelimiter := sd, endDelimiter := ed, dryRun := true, maxFileSize := mfs, includeTree := it } (loadSpec t { repoName := rn, outputInRepo := some n, ignorePatterns := ips, includePatterns := incs, useGitignore := ug, startDelimiter := sd, endDelimiter := ed, dryRun := true, maxFileSize := mfs, includeTree := it }) d x = fileContrib t { repoName := rn, outputInRepo := some n, ignorePatterns := ips, includePatterns := incs, useGitignore := ug, startDelimiter := sd, endDelimiter := ed, dryRun := false, maxFileSize := mfs, includeTree := it } (loadSpec t { repoName := rn, outputInRepo := some n, ignorePatterns := ips, includePatterns := incs, useGitignore := ug, startDelimiter := sd, endDelimiter := ed, dryRun := true, maxFileSize := mfs, includeTree := it }) d x := fun d x h => fileContrib_dry_admitted t { repoName := rn, outputInRepo := some n, ignorePatterns := ips, includePatterns := incs, useGitignore := ug, startDelimiter := sd, endDelimiter := ed, dryRun := dr, maxFileSize := mfs, includeTree := it } (loadSpec t { repoName := rn, outputInRepo := some n, ignorePatterns := ips, includePatterns := incs, useGitignore := ug, startDelimiter := sd, endDelimiter := ed, dryRun := true, maxFileSize := mfs, includeTree := it }) d x h
    have e1 : (walkDir (setRootFile t n "") { repoName := rn, outputInRepo := some n, ignorePatterns := ips, includePatterns := incs, useGitignore := ug, startDelimiter := sd, endDelimiter := ed, dryRun := false, maxFileSize := mfs, includeTree := it } (loadSpec t { repoName := rn, outputInRepo := some n, ignorePatterns := ips, includePatterns := incs, useGitignore := ug, startDelimiter := sd, endDelimiter := ed, dryRun := true, maxFileSize := mfs, includeTree := it }) [] (setRootFile t n "")).count = (walkDir t { repoName := rn, outputInRepo := some n, ignorePatterns := ips, includePatterns := incs, useGitignore := ug, startDelimiter := sd, endDelimiter := ed, dryRun := false, maxFileSize := mfs, includeTree := it } (loadSpec t { repoName := rn, outputInRepo := some n, ignorePatterns := ips, includePatterns := incs, useGitignore := ug, startDelimiter := sd, endDelimiter := ed, dryRun := true, maxFileSize := mfs, includeTree := it }) [] (setRootFile t n "")).count := by
      rw [walkDir, walkDir]
      dsimp only
      rw [filePass_setRootFile t n "" hn,
        (walk_repo_setRootFile t n "" hn { repoName := rn, outputInRepo := some n, ignorePatterns := ips, includePatterns := incs, useGitignore := ug, startDelimiter := sd, endDelimiter := ed, dryRun := false, maxFileSize := mfs, includeTree := it } (loadSpec t { repoName := rn, outputInRepo := some n, ignorePatterns := ips, includePatterns := incs, useGitignore := ug, startDelimiter := sd, endDelimiter := ed, dryRun := true, maxFileSize := mfs, includeTree := it }) (sizeOf (setRootFile t n ""))).2 (setRootFile t n "") [] (le_refl _)]
    have e2 : (walkDir t { repoName := rn, outputInRepo := some n, ignorePatterns := ips, includePatterns := incs, useGitignore := ug, startDelimiter := sd, endDelimiter := ed, dryRun := false, maxFileSize := mfs, includeTree := it } (loadSpec t { repoName := rn, outputInRepo := some n, ignorePatterns := ips, includePatterns := incs, useGitignore := ug, startDelimiter := sd, endDelimiter := ed, dryRun := true, maxFileSize := mfs, includeTree := it }) [] (setRootFile t n "")).count = (walkDir t { repoName := rn, outputInRepo := some n, ignorePatterns := ips, includePatterns := incs, useGitignore := ug, startDelimiter := sd, endDelimiter := ed, dryRun := false, maxFileSize := mfs, includeTree := it } (loadSpec t { repoName := rn, outputInRepo := some n, ignorePatterns := ips, includePatterns := incs, useGitignore := ug, startDelimiter := sd, endDelimiter := ed, dryRun := true, maxFileSize := mfs, includeTree := it }) [] t).count := by
      rw [walkDir, walkDir]
      dsimp only
      have hfp : (filePass t { repoName := rn, outputInRepo := some n, ignorePatterns := ips, includePatterns := incs, useGitignore := ug, startDelimiter := sd, endDelimiter := ed, dryRun := false, maxFileSize := mfs, includeTree := it } (loadSpec t { repoName := rn, outputInRepo := some n, ignorePatterns := ips, includePatterns := incs, useGitignore := ug, startDelimiter := sd, endDelimiter := ed, dryRun := true, maxFileSize := mfs, includeTree := it }) [] (setRootFile t n "")).2 = (filePass t { repoName := rn, outputInRepo := some n, ignorePatterns := ips, includePatterns := incs, useGitignore := ug, startDelimiter := sd, endDelimiter := ed, dryRun := false, maxFileSize := mfs, includeTree := it } (loadSpec t { repoName := rn, outputInRepo := some n, ignorePatterns := ips, includePatterns := incs, useGitignore := ug, startDelimiter := sd, endDelimiter := ed, dryRun := true, maxFileSize := mfs, includeTree := it }) [] t).2 := by
        unfold filePass
        rw [admitFiles_count_sum, admitFiles_count_sum, sum_sortBy, sum_sortBy]
        exact sum_contrib_setRootFile (fileContrib t { repoName := rn, outputInRepo := some n, ignorePatterns := ips, includePatterns := incs, useGitignore := ug, startDelimiter := sd, endDelimiter := ed, dryRun := false, maxFileSize := mfs, includeTree := it } (loadSpec t { repoName := rn, outputInRepo := some n, ignorePatterns := ips, includePatterns := incs, useGitignore := ug, startDelimiter := sd, endDelimiter := ed, dryRun := true, maxFileSize := mfs, includeTree := it }) []) n "" (fun fd => fileContrib_output_zero t { repoName := rn, outputInRepo := some n, ignorePatterns := ips, includePatterns := incs, useGitignore := ug, startDelimiter := sd, endDelimiter := ed, dryRun := false, maxFileSize := mfs, includeTree := it } (loadSpec t { repoName := rn, outputInRepo := some n, ignorePatterns := ips, includePatterns := incs, useGitignore := ug, startDelimiter := sd, endDelimiter := ed, dryRun := true, maxFileSize := mfs, includeTree := it }) n rfl fd) t
      rw [hfp, walkSub_count_setRootFile t { repoName := rn, outputInRepo := some n, ignorePatterns := ips, includePatterns := incs, useGitignore := ug, startDelimiter := sd, endDelimiter := ed, dryRun := false, maxFileSize := mfs, includeTree := it } (loadSpec t { repoName := rn, outputInRepo := some n, ignorePatterns := ips, includePatterns := incs, useGitignore := ug, startDelimiter := sd, endDelimiter := ed, dryRun := true, maxFileSize := mfs, includeTree := it }) n "" t []]
    exact (walkDir_count_admitted_congr t t t { repoName := rn, outputInRepo := some n, ignorePatterns := ips, includePatterns := incs, useGitignore := ug, startDelimiter := sd, endDelimiter := ed, dryRun := dr, maxFileSize := mfs, includeTree := it } { repoName := rn, outputInRepo := some n, ignorePatterns := ips, includePatterns := incs, useGitignore := ug, startDelimiter := sd, endDelimiter := ed, dryRun := true, maxFileSize := mfs, includeTree := it } { repoName := rn, outputInRepo := some n, ignorePatterns := ips, includePatterns := incs, useGitignore := ug, startDelimiter := sd, endDelimiter := ed, dryRun := false, maxFileSize := mfs, includeTree := it } (loadSpec t { repoName := rn, outputInRepo := some n, ignorePatterns := ips, includePatterns := incs, useGitignore := ug, startDelimiter := sd, endDelimiter := ed, dryRun := true, maxFileSize := mfs, includeTree := it }) hig0 hig hcontrib [] t hfc hlc).trans (e2.symm.trans e1.symm)

set_option maxRecDepth 4000 in
unseal globMatch in
/-- C6 counterexample: a file whose content read fails transiently is
counted by a dry run but skipped by the otherwise identical real run, so
the two counts differ. -/
theorem c6_counterexample :
    (run readErrorTree { baseConfig with dryRun := true }).count = 1 ∧
    (run readErrorTree { baseConfig with dryRun := false }).count = 0 ∧
    (run readErrorTree { baseConfig with dryRun := true }).count ≠
      (run readErrorTree { baseConfig with dryRun := false }).count := by decide

set_option maxRecDepth 4000 in
unseal globMatch in
/-- C6 witness: the amended dry-run/real-run count agreement, instantiated
at the §8 nested-gitignore tree (every file the run admits reads
successfully) with the output artifact at `out.txt`. -/
theorem c6_witness :
    runAdmitClean nestedScenarioTree
      { baseConfig with outputInRepo := some "out.txt" } = true ∧
    ({ baseConfig with outputInRepo := some "out.txt" } : Config).outputInRepo ≠
      some ".gitignore" ∧
    ((run nestedScenarioTree
        { { baseConfig with outputInRepo := some "out.txt" } with dryRun := true }).count =
      (run nestedScenarioTree
        { { baseConfig with outputInRepo := some "out.txt" } with dryRun := false }).count ∧
     (run nestedScenarioTree
        { { baseConfig with outputInRepo := some "out.txt" } with dryRun := true }).doc =
       none) :=
  ⟨by decide, by decide,
    c6_amended_dry_run nestedScenarioTree { baseConfig with outputInRepo := some "out.txt" }
      (by decide) (by decide)⟩

/-! ## C10 -/

/-- C10: per-entry atomicity on read failure — in a real run, a file
whose content read raises contributes nothing: the per-directory loop
over the sorted files yields exactly the records and count it would yield
without that file, so no partial record exists, the count is not
incremented for it, and the files after it are still processed. -/
theorem c10_read_failure_atomic (repo : List Entry) (cfg : Config)
    (spec : Option (List GitPattern)) (dirSegs : List String)
    (pre post : List (String × FileData)) (n : String) (d : FileData)
    (hdry : cfg.dryRun = false) (herr : d.readError = true) :
    admitFiles repo cfg spec dirSegs (pre ++ (n, d) :: post) =
      admitFiles repo cfg spec dirSegs (pre ++ post) := by
  induction pre with
  | nil =>
    simp only [List.nil_append]
    rw [admitFiles]
    simp [hdry, herr, ite_self]
  | cons hd tl ih =>
    obtain ⟨m, fd⟩ := hd
    simp only [List.cons_append]
    rw [admitFiles, admitFiles, ih]

/-- C10 witness: a concrete failing file between two healthy ones. -/
theorem c10_witness :
    baseConfig.dryRun = false ∧
    (FileData.mk "hello" true).readError = true ∧
    admitFiles readErrorTree baseConfig none []
        ([("a.txt", ⟨"ok\n", false⟩)] ++ ("f.txt", ⟨"hello", true⟩) ::
          [("z.txt", ⟨"zz\n", false⟩)]) =
      admitFiles readErrorTree baseConfig none []
        ([("a.txt", ⟨"ok\n", false⟩)] ++ [("z.txt", ⟨"zz\n", false⟩)]) :=
  ⟨rfl, rfl, c10_read_failure_atomic _ _ _ _ _ _ _ _ rfl rfl⟩

end GitDump
